import Mathlib

/-!
Dense matrix class of `classes/matrix.cpp`.

A shallow embedding of the C++ class `Matrix` and of its member functions, with the
`double` entries taken as exact rationals.  Every C++ `for` loop is a `forLoop` over the
same index range whose body performs the same reads and writes on the grid.

Where the rounding of `double` decides a property, the member function is also given with a
rounding step after each arithmetic operation (`Matrix.addWith`, `Matrix.scaleWith`), and
`roundDouble` is the rounding of IEEE-754 binary64.
-/

/-- Square rational matrices of Mathlib, the yardstick for `determinant`. -/
abbrev SqMat (n : Nat) : Type := Matrix (Fin n) (Fin n) ℚ

/-- Rectangular rational matrices of Mathlib, the yardstick for `rank`. -/
abbrev RectMat (m n : Nat) : Type := Matrix (Fin m) (Fin n) ℚ

namespace MatrixCpp

/-- The grid behind `double** data`: `g i` is the row that `data[i]` points to and
`g i j` is the cell `data[i][j]`, the one `operator()(i, j)` refers to.  Cells outside the allocated grid are never read by the
member functions on valid input; they are present only because the model is total. -/
abbrev Grid : Type := Nat → Nat → ℚ

/-- The class `Matrix`: the fields `data`, `rows_`, `cols_`. -/
structure Matrix where
  rows_ : Nat
  cols_ : Nat
  data : Grid

/-- The loop `for (int i = lo; i < hi; i++) body`, acting on the state `s`. -/
def forLoop {σ : Type} (lo hi : Nat) (body : Nat → σ → σ) (s : σ) : σ :=
  (List.range' lo (hi - lo)).foldl (fun acc i => body i acc) s

/-- The assignment `g[i][j] = v`. -/
def Grid.set (g : Grid) (i j : Nat) (v : ℚ) : Grid :=
  Function.update g i (Function.update (g i) j v)

/-- The exchange of the row pointers `data[i]` and `data[p]` through `temp`. -/
def Grid.swapRows (g : Grid) (i p : Nat) : Grid :=
  let temp := g i
  let g1 := Function.update g i (g p)
  Function.update g1 p temp

/-- The helper `allocate(rows, cols)`: a fresh grid whose cells are all `0.0`. -/
def allocate (_rows _cols : Nat) : Grid := fun _ _ => 0

/-- The default constructor `Matrix()`: no rows, no columns, no storage. -/
def Matrix.empty : Matrix := ⟨0, 0, fun _ _ => 0⟩

/-- The constructor `Matrix(rows, cols)`. -/
def Matrix.zeros (rows cols : Nat) : Matrix := ⟨rows, cols, allocate rows cols⟩

/-- The copy constructor `Matrix(const Matrix& other)`. -/
def Matrix.copy (other : Matrix) : Matrix :=
  { rows_ := other.rows_
    cols_ := other.cols_
    data :=
      forLoop 0 other.rows_ (fun i d =>
        forLoop 0 other.cols_ (fun j d => d.set i j (other.data i j)) d)
        (allocate other.rows_ other.cols_) }

/-- The member `transpose()`. -/
def Matrix.transpose (M : Matrix) : Matrix :=
  let result := Matrix.zeros M.cols_ M.rows_
  { result with
    data :=
      forLoop 0 M.rows_ (fun i res =>
        forLoop 0 M.cols_ (fun j res => res.set j i (M.data i j)) res) result.data }

/-- The member `operator+(const Matrix& other)` in exact arithmetic; `Matrix.addWith` is
the same function with the rounding of each sum made explicit. -/
def Matrix.add (M other : Matrix) : Matrix :=
  if M.rows_ ≠ other.rows_ ∨ M.cols_ ≠ other.cols_ then Matrix.empty
  else
    let result := Matrix.zeros M.rows_ M.cols_
    { result with
      data :=
        forLoop 0 M.rows_ (fun i res =>
          forLoop 0 M.cols_ (fun j res => res.set i j (M.data i j + other.data i j)) res)
          result.data }

/-- The member `operator*(const Matrix& other)`: the product with the test `aik != 0.0`
guarding the innermost loop. -/
def Matrix.multiply (M other : Matrix) : Matrix :=
  if M.cols_ ≠ other.rows_ then Matrix.empty
  else
    let result := Matrix.zeros M.rows_ other.cols_
    { result with
      data :=
        forLoop 0 M.rows_ (fun i res =>
          forLoop 0 M.cols_ (fun k res =>
            let aik := M.data i k
            if aik ≠ 0 then
              forLoop 0 other.cols_ (fun j res => res.set i j (res i j + aik * other.data k j)) res
            else res) res) result.data }

/-- The textbook triple loop the specification compares `multiply` with: the same three
loops without the test on `aik`. -/
def Matrix.multiplyTextbook (M other : Matrix) : Matrix :=
  if M.cols_ ≠ other.rows_ then Matrix.empty
  else
    let result := Matrix.zeros M.rows_ other.cols_
    { result with
      data :=
        forLoop 0 M.rows_ (fun i res =>
          forLoop 0 M.cols_ (fun k res =>
            forLoop 0 other.cols_ (fun j res =>
              res.set i j (res i j + M.data i k * other.data k j)) res) res) result.data }

/-- The literal `1e-12` of `determinant()` and `rank()`. -/
def tol : ℚ := 1 / 1000000000000

/-- The state of the outer loop of `determinant()`: the working copy `A` (its grid), the
running product `det` and the flag `sign`. -/
structure DetState where
  A : Grid
  det : ℚ
  sign : Int

/-- The pivot search of `determinant()`:
`pivot = i; for k in i+1..n-1: if (abs(A(k,i)) > abs(A(pivot,i))) pivot = k`. -/
def selectPivot (A : Grid) (n i : Nat) : Nat :=
  forLoop (i + 1) n (fun k pivot => if abs (A k i) > abs (A pivot i) then k else pivot) i

/-- The elimination below the pivot of `determinant()`, rows `i+1..n-1`, columns `i..n-1`. -/
def eliminate (A : Grid) (n i : Nat) : Grid :=
  forLoop (i + 1) n (fun k A =>
    let factor := A k i / A i i
    if factor ≠ 0 then
      forLoop i n (fun j A => A.set k j (A k j - factor * A i j)) A
    else A) A

/-- One pass of the outer loop of `determinant()` for the column `i`; `none` is the early
`return 0.0` taken when the chosen pivot is below the tolerance. -/
def detBody (n i : Nat) (s : DetState) : Option DetState :=
  let pivot := selectPivot s.A n i
  if abs (s.A pivot i) < tol then none
  else
    let A1 := if pivot ≠ i then s.A.swapRows i pivot else s.A
    let sign1 := if pivot ≠ i then -s.sign else s.sign
    let A2 := eliminate A1 n i
    some ⟨A2, s.det * A2 i i, sign1⟩

/-- The outer loop of `determinant()` with `cnt` passes left, the next one for column `i`,
followed by the final `return sign * det`. -/
def detLoop (n : Nat) : Nat → Nat → DetState → ℚ
  | 0, _, s => (s.sign : ℚ) * s.det
  | cnt + 1, i, s =>
    match detBody n i s with
    | none => 0
    | some s1 => detLoop n cnt (i + 1) s1

/-- The member `determinant()`. -/
def Matrix.determinant (M : Matrix) : ℚ :=
  if M.rows_ ≠ M.cols_ ∨ M.rows_ = 0 then 0
  else
    let n := M.rows_
    let A := M.copy
    detLoop n n 0 ⟨A.data, 1, 1⟩

/-- The state of `determinant()` on entry to the pass for column `i`, `none` once the early
`return 0.0` has been taken. -/
def detStateAt (M : Matrix) : Nat → Option DetState
  | 0 => some ⟨M.copy.data, 1, 1⟩
  | i + 1 => (detStateAt M i).bind (detBody M.rows_ i)

/-- The constructor from a nested initializer list whose rows all have the length of the
first one. -/
def Matrix.ofRows (l : List (List ℚ)) : Matrix :=
  let rows := l.length
  let cols := if rows = 0 then 0 else (l.headD []).length
  { rows_ := rows
    cols_ := cols
    data := fun i j => (l.getD i []).getD j 0 }

/-- Equality as the specification means it: same dimensions and equal entries. -/
def Matrix.Same (X Y : Matrix) : Prop :=
  X.rows_ = Y.rows_ ∧ X.cols_ = Y.cols_ ∧
    ∀ i j, i < X.rows_ → j < X.cols_ → X.data i j = Y.data i j

/-- The grid of an `n × n` matrix as a matrix of Mathlib. -/
def toSq (n : Nat) (g : Grid) : SqMat n := Matrix.of fun i j => g i.val j.val

/-- The invariant of the outer loop of `determinant()` on entry to the pass for column `i`:
`D` is the determinant of the input. -/
structure DetInv (n : Nat) (D : ℚ) (i : Nat) (s : DetState) : Prop where
  sign_unit : s.sign = 1 ∨ s.sign = -1
  det_eq : (s.sign : ℚ) * (toSq n s.A).det = D
  lower : ∀ r c, c < i → c < r → r < n → s.A r c = 0
  prod_eq : s.det = ∏ c in Finset.range i, s.A c c

/-- The 3×3 matrix `A` of `main`. -/
def exampleA : Matrix := Matrix.ofRows [[1, 2, 3], [4, 5, 6], [7, 8, 9]]

/-- The 3×3 matrix `C` of `main`. -/
def exampleC : Matrix := Matrix.ofRows [[2, -1, 0], [-1, 2, -1], [0, -1, 2]]

/-- The 3×3 matrix `D` of `main`. -/
def exampleD : Matrix := Matrix.ofRows [[1, 2, 3], [2, 4, 6], [3, 6, 9]]

/-- The 2×3 matrix `E` of `main`. -/
def exampleE : Matrix := Matrix.ofRows [[1, 2, 3], [4, 5, 6]]

/-- The 3×2 matrix `F` of `main`. -/
def exampleF : Matrix := Matrix.ofRows [[7, 8], [9, 10], [11, 12]]

/-- The member `operator*(double scalar)` in exact arithmetic; `Matrix.scaleWith` is the
same function with the rounding of each product made explicit. -/
def Matrix.scale (M : Matrix) (scalar : ℚ) : Matrix :=
  let result := Matrix.zeros M.rows_ M.cols_
  { result with
    data :=
      forLoop 0 M.rows_ (fun i res =>
        forLoop 0 M.cols_ (fun j res => res.set i j (M.data i j * scalar)) res) result.data }

/-- The free function `operator*(double scalar, const Matrix& M)`. -/
def scaleLeft (scalar : ℚ) (M : Matrix) : Matrix := M.scale scalar

/-- The state of the outer loop of `rank()`: the working copy `A` (its grid), the pivot row
`row` and the counter `r`. -/
structure RankState where
  A : Grid
  row : Nat
  r : Nat

/-- The pivot search of `rank()`:
`sel = -1; for (i = row; i < m; i++) if (abs(A(i, col)) > 1e-12) { sel = i; break; }`
with `cnt` rows left to look at, the next one being `i`; `none` is `sel == -1`. -/
def findSel (A : Grid) (col : Nat) : Nat → Nat → Option Nat
  | 0, _ => none
  | cnt + 1, i => if abs (A i col) > tol then some i else findSel A col cnt (i + 1)

/-- The elimination below the pivot of `rank()`, rows `row+1..m-1`, columns `col..n-1`. -/
def rankEliminate (A : Grid) (m n row col : Nat) : Grid :=
  forLoop (row + 1) m (fun i A =>
    let factor := A i col / A row col
    if factor ≠ 0 then
      forLoop col n (fun j A => A.set i j (A i j - factor * A row j)) A
    else A) A

/-- One pass of the outer loop of `rank()` for the column `col`. -/
def rankBody (m n col : Nat) (s : RankState) : RankState :=
  match findSel s.A col (m - s.row) s.row with
  | none => s
  | some sel =>
    let A1 := if sel ≠ s.row then s.A.swapRows s.row sel else s.A
    let A2 := rankEliminate A1 m n s.row col
    ⟨A2, s.row + 1, s.r + 1⟩

/-- The outer loop of `rank()`, `for (col = 0, row = 0; col < n && row < m; col++)`, with
`cnt` columns left, the next one being `col`, followed by the final `return r`. -/
def rankLoop (m n : Nat) : Nat → Nat → RankState → Nat
  | 0, _, s => s.r
  | cnt + 1, col, s =>
    if s.row < m then rankLoop m n cnt (col + 1) (rankBody m n col s) else s.r

/-- The member `rank()`. -/
def Matrix.rank (M : Matrix) : Nat :=
  let A := M.copy
  let m := M.rows_
  let n := M.cols_
  rankLoop m n n 0 ⟨A.data, 0, 0⟩

/-- The grid of an `m × n` matrix as a matrix of Mathlib. -/
def toRect (m n : Nat) (g : Grid) : RectMat m n := Matrix.of fun i j => g i.val j.val

/-- The `n × n` identity matrix as an input of the class. -/
def identity (n : Nat) : Matrix := ⟨n, n, fun i j => if i = j then 1 else 0⟩

/-- The 1×1 matrix whose only entry is the tolerance `1e-12`. -/
def exampleTol : Matrix := Matrix.ofRows [[tol]]

/-- The invariant of the outer loop of `rank()` used against the rank of the input: a grid
`T` obtained from the input by operations on whole rows, of rank at most `R0`, agrees with
the working copy from the column `col` on and has one pivot column for each counted row. -/
def RankInv (m n R0 col : Nat) (s : RankState) : Prop :=
  s.r = s.row ∧ s.row ≤ m ∧
    ∃ T : Grid, (toRect m n T).rank ≤ R0 ∧
      (∀ i j, i < m → j < n → col ≤ j → T i j = s.A i j) ∧
      ∀ k, k < s.r → ∃ c, c < n ∧ T k c ≠ 0 ∧ ∀ i, k < i → i < m → T i c = 0

/-- The search behind `binLog`: halve `n` until it is below 2, at most `fuel` times. -/
def binLogAux : Nat → Nat → Nat
  | 0, _ => 0
  | fuel + 1, n => if 2 ≤ n then binLogAux fuel (n / 2) + 1 else 0

/-- The position of the leading binary digit of `n`: the largest `e` with `2^e ≤ n`, and 0
for `n = 0`.  The search needs fewer than `n` halvings. -/
def binLog (n : Nat) : Nat := binLogAux n n

/-- The value that IEEE-754 binary64 arithmetic stores for the exact result `x` of one
operation on `double`s: the nearest number with a 53-bit significand, ties to the even
significand, with the spacing of the subnormal numbers below `2^-1022`.  The overflow to
infinity (results of magnitude `2^1024` and more) is not represented. -/
def roundDouble (x : ℚ) : ℚ :=
  if x = 0 then 0
  else
    let p := x.num.natAbs
    let q := x.den
    let e0 : Int := (binLog p : Int) - (binLog q : Int)
    let e : Int := if 2 ^ binLog p * q ≤ p * 2 ^ binLog q then e0 else e0 - 1
    let k : Int := 52 - max e (-1022)
    let N : Nat := if 0 ≤ k then p * 2 ^ k.toNat else p
    let D : Nat := if 0 ≤ k then q else q * 2 ^ (-k).toNat
    let f := N / D
    let r := N % D
    let m : Nat :=
      if 2 * r < D then f else if D < 2 * r then f + 1 else if f % 2 = 0 then f else f + 1
    let mag : ℚ :=
      if 0 ≤ k then (m : ℚ) / ((2 ^ k.toNat : Nat) : ℚ) else (m : ℚ) * ((2 ^ (-k).toNat : Nat) : ℚ)
    if x < 0 then -mag else mag

/-- The member `operator+(const Matrix& other)` with every sum of two entries stored as
`rnd` of its exact value: `rnd := id` is exact arithmetic, `rnd := roundDouble` is the
arithmetic of `double`. -/
def Matrix.addWith (rnd : ℚ → ℚ) (M other : Matrix) : Matrix :=
  if M.rows_ ≠ other.rows_ ∨ M.cols_ ≠ other.cols_ then Matrix.empty
  else
    let result := Matrix.zeros M.rows_ M.cols_
    { result with
      data :=
        forLoop 0 M.rows_ (fun i res =>
          forLoop 0 M.cols_ (fun j res =>
            res.set i j (rnd (M.data i j + other.data i j))) res) result.data }

/-- The member `operator*(double scalar)` with every product stored as `rnd` of its exact
value: `rnd := id` is exact arithmetic, `rnd := roundDouble` is the arithmetic of
`double`. -/
def Matrix.scaleWith (rnd : ℚ → ℚ) (M : Matrix) (scalar : ℚ) : Matrix :=
  let result := Matrix.zeros M.rows_ M.cols_
  { result with
    data :=
      forLoop 0 M.rows_ (fun i res =>
        forLoop 0 M.cols_ (fun j res => res.set i j (rnd (M.data i j * scalar))) res)
        result.data }

/-- The 1×1 matrix `[[1]]`. -/
def exampleOne : Matrix := Matrix.ofRows [[1]]

/-- The 1×1 matrix `[[2^-53]]`. -/
def exampleHalfUlp : Matrix := Matrix.ofRows [[1 / 9007199254740992]]

/-- The 1×1 matrix `[[94906265]]`. -/
def exampleBig : Matrix := Matrix.ofRows [[94906265]]

/-! ## Counted loops and grid updates -/

section Loops
variable {σ : Type}

theorem forLoop_empty (lo hi : Nat) (body : Nat → σ → σ) (s : σ) (h : hi ≤ lo) :
    forLoop lo hi body s = s := by
  simp [forLoop, Nat.sub_eq_zero_of_le h]

theorem forLoop_succ (lo hi : Nat) (body : Nat → σ → σ) (s : σ) (h : lo ≤ hi) :
    forLoop lo (hi + 1) body s = body hi (forLoop lo hi body s) := by
  unfold forLoop
  have e : hi + 1 - lo = (hi - lo) + 1 := by omega
  rw [e, List.range'_concat, List.foldl_append]
  simp
  congr 1
  omega

theorem forLoop_first (lo hi : Nat) (body : Nat → σ → σ) (s : σ) (h : lo < hi) :
    forLoop lo hi body s = forLoop (lo + 1) hi body (body lo s) := by
  unfold forLoop
  have e : hi - lo = (hi - (lo + 1)) + 1 := by omega
  rw [e, List.range'_succ]
  simp

/-- Invariant rule for a counted loop. -/
theorem forLoop_inv (P : Nat → σ → Prop) (lo hi : Nat) (body : Nat → σ → σ) (s : σ)
    (h : lo ≤ hi) (h0 : P lo s)
    (hstep : ∀ i t, lo ≤ i → i < hi → P i t → P (i + 1) (body i t)) :
    P hi (forLoop lo hi body s) := by
  induction hi with
  | zero =>
    have : lo = 0 := by omega
    subst this
    rw [forLoop_empty _ _ _ _ (le_refl 0)]
    exact h0
  | succ m ih =>
    rcases Nat.lt_or_ge lo (m + 1) with hlt | hge
    · have hle : lo ≤ m := by omega
      rw [forLoop_succ _ _ _ _ hle]
      exact hstep m _ hle (Nat.lt_succ_self m)
        (ih hle (fun i t h1 h2 h3 => hstep i t h1 (by omega) h3))
    · have : lo = m + 1 := by omega
      subst this
      rw [forLoop_empty _ _ _ _ (le_refl _)]
      exact h0

end Loops

theorem Grid.set_apply (g : Grid) (i j : Nat) (v : ℚ) (r c : Nat) :
    g.set i j v r c = if r = i ∧ c = j then v else g r c := by
  unfold Grid.set
  by_cases hr : r = i
  · subst hr
    by_cases hc : c = j
    · subst hc; simp
    · simp [hc]
  · simp [hr]

theorem Grid.swapRows_apply (g : Grid) (i p r : Nat) :
    g.swapRows i p r = if r = p then g i else if r = i then g p else g r := by
  unfold Grid.swapRows
  by_cases hp : r = p
  · subst hp; simp
  · by_cases hi : r = i
    · subst hi; simp [hp]
    · simp [hp, hi]

/-- An inner pass that writes `v j` into the cells `(rowOf j, colOf j)` of one line. -/
theorem fillRow_apply (C i : Nat) (v : Nat → ℚ) (g : Grid) (r c : Nat) :
    forLoop 0 C (fun j d => d.set i j (v j)) g r c =
      if r = i ∧ c < C then v c else g r c := by
  revert r c
  refine forLoop_inv (fun k e => ∀ r c, e r c = if r = i ∧ c < k then v c else g r c)
    0 C _ g (Nat.zero_le _) (by simp) ?_
  intro k t _ _ ht r c
  rw [Grid.set_apply, ht]
  by_cases h1 : r = i
  · by_cases h2 : c = k
    · subst h1; subst h2; simp
    · have : (c < k + 1) = (c < k) := by
        apply propext; constructor <;> intro h <;> omega
      simp [h1, h2, this]
  · simp [h1]

/-- A row-major pass that writes `v i j` into the cell `(i, j)`. -/
theorem fill_apply (R C : Nat) (v : Nat → Nat → ℚ) (g : Grid) (r c : Nat) :
    forLoop 0 R (fun i d => forLoop 0 C (fun j d => d.set i j (v i j)) d) g r c =
      if r < R ∧ c < C then v r c else g r c := by
  revert r c
  refine forLoop_inv (fun k e => ∀ r c, e r c = if r < k ∧ c < C then v r c else g r c)
    0 R _ g (Nat.zero_le _) (by simp) ?_
  intro k t _ _ ht r c
  rw [fillRow_apply, ht]
  by_cases h1 : r = k
  · subst h1
    by_cases h2 : c < C <;> simp [h2]
  · have : (r < k + 1) = (r < k) := by
      apply propext; constructor <;> intro h <;> omega
    simp [h1, this]

/-- An inner pass that writes `v j` into the cells `(j, i)` of one column. -/
theorem fillCol_apply (C i : Nat) (v : Nat → ℚ) (g : Grid) (r c : Nat) :
    forLoop 0 C (fun j d => d.set j i (v j)) g r c =
      if c = i ∧ r < C then v r else g r c := by
  revert r c
  refine forLoop_inv (fun k e => ∀ r c, e r c = if c = i ∧ r < k then v r else g r c)
    0 C _ g (Nat.zero_le _) (by simp) ?_
  intro k t _ _ ht r c
  rw [Grid.set_apply, ht]
  by_cases h1 : c = i
  · by_cases h2 : r = k
    · subst h1; subst h2; simp
    · have : (r < k + 1) = (r < k) := by
        apply propext; constructor <;> intro h <;> omega
      simp [h1, h2, this]
  · simp [h1]

/-- A row-major pass over the source that writes `v i j` into the cell `(j, i)`. -/
theorem fillT_apply (R C : Nat) (v : Nat → Nat → ℚ) (g : Grid) (r c : Nat) :
    forLoop 0 R (fun i d => forLoop 0 C (fun j d => d.set j i (v i j)) d) g r c =
      if c < R ∧ r < C then v c r else g r c := by
  revert r c
  refine forLoop_inv (fun k e => ∀ r c, e r c = if c < k ∧ r < C then v c r else g r c)
    0 R _ g (Nat.zero_le _) (by simp) ?_
  intro k t _ _ ht r c
  rw [fillCol_apply, ht]
  by_cases h1 : c = k
  · subst h1
    by_cases h2 : r < C <;> simp [h2]
  · have : (c < k + 1) = (c < k) := by
      apply propext; constructor <;> intro h <;> omega
    simp [h1, this]

theorem transpose_data (M : Matrix) (r c : Nat) :
    M.transpose.data r c = if c < M.rows_ ∧ r < M.cols_ then M.data c r else 0 := by
  unfold Matrix.transpose
  simp only [Matrix.zeros, allocate]
  rw [fillT_apply]
  rfl

theorem add_data (M N : Matrix) (h1 : M.rows_ = N.rows_) (h2 : M.cols_ = N.cols_)
    (r c : Nat) :
    (M.add N).data r c =
      if r < M.rows_ ∧ c < M.cols_ then M.data r c + N.data r c else 0 := by
  unfold Matrix.add
  simp only [h1, h2, ne_eq, not_true_eq_false, or_self, if_false, Matrix.zeros]
  rw [fill_apply]
  rfl

theorem copy_data (M : Matrix) (r c : Nat) :
    M.copy.data r c = if r < M.rows_ ∧ c < M.cols_ then M.data r c else 0 := by
  show forLoop 0 M.rows_ (fun i d =>
      forLoop 0 M.cols_ (fun j d => d.set i j (M.data i j)) d)
      (allocate M.rows_ M.cols_) r c = _
  rw [fill_apply]
  rfl

/-- The innermost loop of the product: `result(i, j) += aik * other(k, j)` for all `j`. -/
theorem mulInner_apply (p i : Nat) (a : ℚ) (b : Nat → ℚ) (g : Grid) (r c : Nat) :
    forLoop 0 p (fun j res => res.set i j (res i j + a * b j)) g r c =
      if r = i ∧ c < p then g r c + a * b c else g r c := by
  revert r c
  refine forLoop_inv
    (fun k e => ∀ r c, e r c = if r = i ∧ c < k then g r c + a * b c else g r c)
    0 p _ g (Nat.zero_le _) (by simp) ?_
  intro k t _ _ ht r c
  rw [Grid.set_apply, ht, ht]
  by_cases h1 : r = i
  · by_cases h2 : c = k
    · subst h1; subst h2; simp
    · have : (c < k + 1) = (c < k) := by
        apply propext; constructor <;> intro h <;> omega
      simp [h1, h2, this]
  · simp [h1]

/-- The loop over `k` of the product for one result row, with the test on `aik`. -/
theorem mulMiddle_apply (n p i : Nat) (A B : Grid) (g : Grid) (r c : Nat) :
    forLoop 0 n (fun k res =>
        let aik := A i k
        if aik ≠ 0 then
          forLoop 0 p (fun j res => res.set i j (res i j + aik * B k j)) res
        else res) g r c =
      if r = i ∧ c < p then g r c + ∑ k in Finset.range n, A i k * B k c else g r c := by
  revert r c
  refine forLoop_inv
    (fun m e => ∀ r c, e r c =
      if r = i ∧ c < p then g r c + ∑ k in Finset.range m, A i k * B k c else g r c)
    0 n _ g (Nat.zero_le _) (by simp) ?_
  intro k t _ _ ht r c
  by_cases ha : A i k = 0
  · simp only [ha, ne_eq, not_true_eq_false, if_false]
    rw [ht, Finset.sum_range_succ, ha]
    simp
  · simp only [ha, ne_eq, not_false_eq_true, if_true]
    rw [mulInner_apply, ht]
    by_cases h : r = i ∧ c < p
    · simp only [h, and_self, if_true]
      rw [Finset.sum_range_succ]
      ring
    · simp only [h, if_false]

/-- The loop over `k` of the textbook product for one result row. -/
theorem mulMiddleTextbook_apply (n p i : Nat) (A B : Grid) (g : Grid) (r c : Nat) :
    forLoop 0 n (fun k res =>
        forLoop 0 p (fun j res => res.set i j (res i j + A i k * B k j)) res) g r c =
      if r = i ∧ c < p then g r c + ∑ k in Finset.range n, A i k * B k c else g r c := by
  revert r c
  refine forLoop_inv
    (fun m e => ∀ r c, e r c =
      if r = i ∧ c < p then g r c + ∑ k in Finset.range m, A i k * B k c else g r c)
    0 n _ g (Nat.zero_le _) (by simp) ?_
  intro k t _ _ ht r c
  rw [mulInner_apply, ht]
  by_cases h : r = i ∧ c < p
  · simp only [h, and_self, if_true]
    rw [Finset.sum_range_succ]
    ring
  · simp only [h, if_false]

/-- The rows of a result that starts at zero and receives `f i` on its row `i`. -/
theorem rowsLoop_apply (m p : Nat) (body : Nat → Grid → Grid) (f : Nat → Nat → ℚ)
    (hbody : ∀ i g r c, body i g r c = if r = i ∧ c < p then g r c + f r c else g r c)
    (r c : Nat) :
    forLoop 0 m body (fun _ _ => 0) r c = if r < m ∧ c < p then f r c else 0 := by
  revert r c
  refine forLoop_inv (fun k (e : Grid) => ∀ r c, e r c = if r < k ∧ c < p then f r c else 0)
    0 m _ _ (Nat.zero_le _) (by simp) ?_
  intro k t _ _ ht r c
  rw [hbody, ht]
  by_cases h1 : r = k
  · subst h1
    by_cases h2 : c < p <;> simp [h2]
  · have : (r < k + 1) = (r < k) := by
      apply propext; constructor <;> intro h <;> omega
    simp [h1, this]

theorem multiply_data (M N : Matrix) (h : M.cols_ = N.rows_) (r c : Nat) :
    (M.multiply N).data r c =
      if r < M.rows_ ∧ c < N.cols_ then ∑ k in Finset.range M.cols_, M.data r k * N.data k c
      else 0 := by
  unfold Matrix.multiply
  simp only [h, ne_eq, not_true_eq_false, if_false, Matrix.zeros, allocate]
  exact rowsLoop_apply M.rows_ N.cols_ _ (fun r c => ∑ k in Finset.range N.rows_, M.data r k * N.data k c)
    (fun i g r c => by
      have := mulMiddle_apply N.rows_ N.cols_ i M.data N.data g r c
      simp only [ne_eq] at this
      rw [this]
      by_cases h1 : r = i
      · subst h1; rfl
      · simp [h1]) r c

theorem multiplyTextbook_data (M N : Matrix) (h : M.cols_ = N.rows_) (r c : Nat) :
    (M.multiplyTextbook N).data r c =
      if r < M.rows_ ∧ c < N.cols_ then ∑ k in Finset.range M.cols_, M.data r k * N.data k c
      else 0 := by
  unfold Matrix.multiplyTextbook
  simp only [h, ne_eq, not_true_eq_false, if_false, Matrix.zeros, allocate]
  exact rowsLoop_apply M.rows_ N.cols_ _ (fun r c => ∑ k in Finset.range N.rows_, M.data r k * N.data k c)
    (fun i g r c => by
      rw [mulMiddleTextbook_apply]
      by_cases h1 : r = i
      · subst h1; rfl
      · simp [h1]) r c

theorem transpose_rows (M : Matrix) : M.transpose.rows_ = M.cols_ := rfl

theorem transpose_cols (M : Matrix) : M.transpose.cols_ = M.rows_ := rfl

theorem add_rows (M N : Matrix) (h1 : M.rows_ = N.rows_) (h2 : M.cols_ = N.cols_) :
    (M.add N).rows_ = M.rows_ := by
  unfold Matrix.add
  simp [h1, h2, Matrix.zeros]

theorem add_cols (M N : Matrix) (h1 : M.rows_ = N.rows_) (h2 : M.cols_ = N.cols_) :
    (M.add N).cols_ = M.cols_ := by
  unfold Matrix.add
  simp [h1, h2, Matrix.zeros]

theorem multiply_rows (M N : Matrix) (h : M.cols_ = N.rows_) :
    (M.multiply N).rows_ = M.rows_ := by
  unfold Matrix.multiply
  simp [h, Matrix.zeros]

theorem multiply_cols (M N : Matrix) (h : M.cols_ = N.rows_) :
    (M.multiply N).cols_ = N.cols_ := by
  unfold Matrix.multiply
  simp [h, Matrix.zeros]

theorem multiplyTextbook_rows (M N : Matrix) (h : M.cols_ = N.rows_) :
    (M.multiplyTextbook N).rows_ = M.rows_ := by
  unfold Matrix.multiplyTextbook
  simp [h, Matrix.zeros]

theorem multiplyTextbook_cols (M N : Matrix) (h : M.cols_ = N.rows_) :
    (M.multiplyTextbook N).cols_ = N.cols_ := by
  unfold Matrix.multiplyTextbook
  simp [h, Matrix.zeros]

theorem Matrix.ext_fields (X Y : Matrix) (h1 : X.rows_ = Y.rows_) (h2 : X.cols_ = Y.cols_)
    (h3 : ∀ r c, X.data r c = Y.data r c) : X = Y := by
  cases X with
  | mk xr xc xd =>
    cases Y with
    | mk yr yc yd =>
      simp only at h1 h2 h3
      subst h1; subst h2
      have : xd = yd := funext fun r => funext fun c => h3 r c
      subst this
      rfl

/-! ## The determinant loop -/

theorem selectPivot_range (A : Grid) (n i : Nat) (h : i < n) :
    i ≤ selectPivot A n i ∧ selectPivot A n i < n := by
  unfold selectPivot
  refine forLoop_inv (fun k p => i ≤ p ∧ p < k) (i + 1) n _ i h ⟨le_refl i, Nat.lt_succ_self i⟩ ?_
  intro k p hk _ hp
  by_cases hc : abs (A k i) > abs (A p i)
  · simp only [hc, if_true]
    omega
  · simp only [hc, if_false]
    omega

/-- The innermost loop of the elimination: `A(k, j) -= factor * A(i, j)` for `j ≥ i`. -/
theorem elimInner_apply (n i k : Nat) (f : ℚ) (g : Grid) (hk : k ≠ i) (hin : i ≤ n)
    (r c : Nat) :
    forLoop i n (fun j A => A.set k j (A k j - f * A i j)) g r c =
      if r = k ∧ i ≤ c ∧ c < n then g r c - f * g i c else g r c := by
  revert r c
  refine forLoop_inv
    (fun m (e : Grid) => ∀ r c, e r c = if r = k ∧ i ≤ c ∧ c < m then g r c - f * g i c else g r c)
    i n _ g hin ?_ ?_
  · intro r c
    have : ¬ (r = k ∧ i ≤ c ∧ c < i) := by omega
    rw [if_neg this]
  · intro m t hm _ ht r c
    rw [Grid.set_apply, ht k m, ht i m, ht r c]
    have e1 : ¬ (k = k ∧ i ≤ m ∧ m < m) := by omega
    have e2 : ¬ (i = k ∧ i ≤ m ∧ m < m) := by omega
    rw [if_neg e1, if_neg e2]
    by_cases h1 : r = k ∧ c = m
    · obtain ⟨rfl, rfl⟩ := h1
      have e3 : r = r ∧ i ≤ c ∧ c < c + 1 := ⟨rfl, hm, Nat.lt_succ_self c⟩
      rw [if_pos ⟨rfl, rfl⟩, if_pos e3]
    · rw [if_neg h1]
      by_cases h2 : r = k ∧ i ≤ c ∧ c < m
      · have e3 : r = k ∧ i ≤ c ∧ c < m + 1 := ⟨h2.1, h2.2.1, by omega⟩
        rw [if_pos h2, if_pos e3]
      · have e3 : ¬ (r = k ∧ i ≤ c ∧ c < m + 1) := by
          intro h3
          rcases h3 with ⟨a, b, c1⟩
          by_cases hcm : c = m
          · exact h1 ⟨a, hcm⟩
          · exact h2 ⟨a, b, by omega⟩
        rw [if_neg h2, if_neg e3]

/-- The elimination below the pivot in closed form. -/
theorem eliminate_apply (g : Grid) (n i : Nat) (hin : i < n) (r c : Nat) :
    eliminate g n i r c =
      if i < r ∧ r < n ∧ i ≤ c ∧ c < n then g r c - g r i / g i i * g i c else g r c := by
  unfold eliminate
  revert r c
  refine forLoop_inv
    (fun m (e : Grid) => ∀ r c, e r c =
      if i < r ∧ r < m ∧ i ≤ c ∧ c < n then g r c - g r i / g i i * g i c else g r c)
    (i + 1) n _ g hin ?_ ?_
  · intro r c
    have : ¬ (i < r ∧ r < i + 1 ∧ i ≤ c ∧ c < n) := by omega
    rw [if_neg this]
  · intro k t hk _ ht r c
    have hki : k ≠ i := by omega
    have tk : ∀ c, t k c = g k c := by
      intro c
      rw [ht]
      have : ¬ (i < k ∧ k < k ∧ i ≤ c ∧ c < n) := by omega
      rw [if_neg this]
    have ti : ∀ c, t i c = g i c := by
      intro c
      rw [ht]
      have : ¬ (i < i ∧ i < k ∧ i ≤ c ∧ c < n) := by omega
      rw [if_neg this]
    have key : (if t k i / t i i ≠ 0 then
          forLoop i n (fun j A => A.set k j (A k j - t k i / t i i * A i j)) t else t) r c =
        if r = k ∧ i ≤ c ∧ c < n then t r c - t k i / t i i * t i c else t r c := by
      by_cases hf : t k i / t i i = 0
      · rw [if_neg (not_not.mpr hf), hf]
        simp
      · rw [if_pos hf, elimInner_apply n i k _ t hki (Nat.le_of_lt hin)]
    show (if t k i / t i i ≠ 0 then
        forLoop i n (fun j A => A.set k j (A k j - t k i / t i i * A i j)) t else t) r c = _
    rw [key]
    by_cases h1 : r = k
    · subst h1
      by_cases h2 : i ≤ c ∧ c < n
      · have e1 : r = r ∧ i ≤ c ∧ c < n := ⟨rfl, h2⟩
        have e2 : i < r ∧ r < r + 1 ∧ i ≤ c ∧ c < n := ⟨by omega, by omega, h2⟩
        rw [if_pos e1, if_pos e2, tk, tk, ti, ti]
      · have e1 : ¬ (r = r ∧ i ≤ c ∧ c < n) := fun h => h2 h.2
        have e2 : ¬ (i < r ∧ r < r + 1 ∧ i ≤ c ∧ c < n) := fun h => h2 h.2.2
        rw [if_neg e1, if_neg e2, tk]
    · have e1 : ¬ (r = k ∧ i ≤ c ∧ c < n) := fun h => h1 h.1
      rw [if_neg e1, ht]
      by_cases h2 : i < r ∧ r < k ∧ i ≤ c ∧ c < n
      · have e2 : i < r ∧ r < k + 1 ∧ i ≤ c ∧ c < n := ⟨h2.1, by omega, h2.2.2⟩
        rw [if_pos h2, if_pos e2]
      · have e2 : ¬ (i < r ∧ r < k + 1 ∧ i ≤ c ∧ c < n) := by
          intro h
          exact h2 ⟨h.1, by omega, h.2.2⟩
        rw [if_neg h2, if_neg e2]

/-- Exchanging two different rows negates the determinant. -/
theorem toSq_swapRows_det (n : Nat) (g : Grid) (i p : Nat) (hi : i < n) (hp : p < n)
    (hne : p ≠ i) : (toSq n (g.swapRows i p)).det = -(toSq n g).det := by
  have e : toSq n (g.swapRows i p) =
      (toSq n g).submatrix (Equiv.swap (⟨i, hi⟩ : Fin n) ⟨p, hp⟩) id := by
    ext a b
    simp only [toSq, Matrix.of_apply, Matrix.submatrix_apply, id]
    rw [Grid.swapRows_apply]
    by_cases h1 : a.val = p
    · have ha : a = ⟨p, hp⟩ := Fin.ext h1
      rw [if_pos h1, ha, Equiv.swap_apply_right]
    · by_cases h2 : a.val = i
      · have ha : a = ⟨i, hi⟩ := Fin.ext h2
        rw [if_neg h1, if_pos h2, ha, Equiv.swap_apply_left]
      · have n1 : a ≠ ⟨i, hi⟩ := fun h => h2 (congrArg Fin.val h)
        have n2 : a ≠ ⟨p, hp⟩ := fun h => h1 (congrArg Fin.val h)
        rw [if_neg h1, if_neg h2, Equiv.swap_apply_of_ne_of_ne n1 n2]
  have hne2 : (⟨i, hi⟩ : Fin n) ≠ ⟨p, hp⟩ := fun h => hne (congrArg Fin.val h).symm
  rw [e, Matrix.det_permute, Equiv.Perm.sign_swap hne2]
  simp

/-- The elimination below the pivot keeps the determinant, provided the pivot row is zero
left of the pivot column. -/
theorem toSq_eliminate_det (n : Nat) (g : Grid) (i : Nat) (hin : i < n)
    (hz : ∀ c, c < i → g i c = 0) : (toSq n (eliminate g n i)).det = (toSq n g).det := by
  apply Matrix.det_eq_of_forall_row_eq_smul_add_const
    (fun r : Fin n => if i < r.val then -(g r.val i / g i i) else 0) ⟨i, hin⟩
  · simp
  · intro a b
    simp only [toSq, Matrix.of_apply]
    rw [eliminate_apply g n i hin]
    by_cases h1 : i < a.val
    · by_cases h2 : i ≤ b.val
      · rw [if_pos ⟨h1, a.isLt, h2, b.isLt⟩, if_pos h1]
        ring
      · have hb : g i b.val = 0 := hz _ (by omega)
        have e1 : ¬ (i < a.val ∧ a.val < n ∧ i ≤ b.val ∧ b.val < n) := fun h => h2 h.2.2.1
        rw [if_neg e1, if_pos h1, hb]
        ring
    · have e1 : ¬ (i < a.val ∧ a.val < n ∧ i ≤ b.val ∧ b.val < n) := fun h => h1 h.1
      rw [if_neg e1, if_neg h1]
      ring

theorem detBody_none_iff (n i : Nat) (s : DetState) :
    detBody n i s = none ↔ abs (s.A (selectPivot s.A n i) i) < tol := by
  unfold detBody
  by_cases h : abs (s.A (selectPivot s.A n i) i) < tol
  · simp [h]
  · simp [h]

theorem tol_pos : 0 < tol := by
  unfold tol
  norm_num

/-- One pass of the outer loop keeps the invariant. -/
theorem detBody_inv (n : Nat) (D : ℚ) (i : Nat) (s s1 : DetState) (hin : i < n)
    (hinv : DetInv n D i s) (hb : detBody n i s = some s1) : DetInv n D (i + 1) s1 := by
  obtain ⟨hp1, hp2⟩ := selectPivot_range s.A n i hin
  have hpiv : ¬ abs (s.A (selectPivot s.A n i) i) < tol := by
    intro h
    rw [(detBody_none_iff n i s).mpr h] at hb
    exact Option.noConfusion hb
  unfold detBody at hb
  simp only [hpiv, if_false, Option.some.injEq] at hb
  generalize hpv : selectPivot s.A n i = p at hb hp1 hp2 hpiv
  -- the grid after the exchange of rows
  generalize hA1 : (if p ≠ i then s.A.swapRows i p else s.A) = A1 at hb
  have A1_row : ∀ r, r ≠ i → r ≠ p → A1 r = s.A r := by
    intro r h1 h2
    rw [← hA1]
    by_cases hpi : p = i
    · simp [hpi]
    · simp only [hpi, ne_eq, not_false_eq_true, if_true]
      rw [Grid.swapRows_apply, if_neg h2, if_neg h1]
  have A1_i : A1 i = s.A p := by
    rw [← hA1]
    by_cases hpi : p = i
    · simp [hpi]
    · simp only [hpi, ne_eq, not_false_eq_true, if_true]
      rw [Grid.swapRows_apply, if_neg (fun h => hpi h.symm), if_pos rfl]
  have A1_p : A1 p = s.A i := by
    rw [← hA1]
    by_cases hpi : p = i
    · simp [hpi]
    · simp only [hpi, ne_eq, not_false_eq_true, if_true]
      rw [Grid.swapRows_apply, if_pos rfl]
  have A1_lower : ∀ r c, c < i → c < r → r < n → A1 r c = 0 := by
    intro r c hc hr hrn
    by_cases h1 : r = i
    · rw [h1, A1_i]
      exact hinv.lower p c hc (by omega) hp2
    · by_cases h2 : r = p
      · rw [h2, A1_p]
        exact hinv.lower i c hc hc hin
      · rw [A1_row r h1 h2]
        exact hinv.lower r c hc hr hrn
  have A1_det : ((if p ≠ i then -s.sign else s.sign : Int) : ℚ) * (toSq n A1).det = D := by
    rw [← hinv.det_eq, ← hA1]
    by_cases hpi : p = i
    · simp [hpi]
    · simp only [hpi, ne_eq, not_false_eq_true, if_true]
      rw [toSq_swapRows_det n s.A i p hin hp2 hpi]
      push_cast
      ring
  have piv_ne : A1 i i ≠ 0 := by
    rw [A1_i]
    intro h0
    apply hpiv
    rw [h0, abs_zero]
    exact tol_pos
  have A2 := eliminate_apply A1 n i hin
  subst hb
  refine ⟨?_, ?_, ?_, ?_⟩
  · show (if p ≠ i then -s.sign else s.sign) = 1 ∨ (if p ≠ i then -s.sign else s.sign) = -1
    rcases hinv.sign_unit with h | h <;> by_cases hpi : p = i <;> simp [hpi, h]
  · show ((if p ≠ i then -s.sign else s.sign : Int) : ℚ) * (toSq n (eliminate A1 n i)).det = D
    rw [toSq_eliminate_det n A1 i hin (fun c hc => A1_lower i c hc hc hin)]
    exact A1_det
  · intro r c hc hr hrn
    show eliminate A1 n i r c = 0
    rw [A2]
    by_cases hci : c = i
    · subst hci
      rw [if_pos ⟨hr, hrn, le_refl c, by omega⟩]
      field_simp
    · have hc2 : c < i := by omega
      have e1 : ¬ (i < r ∧ r < n ∧ i ≤ c ∧ c < n) := by omega
      rw [if_neg e1]
      exact A1_lower r c hc2 hr hrn
  · show s.det * eliminate A1 n i i i = ∏ c in Finset.range (i + 1), eliminate A1 n i c c
    rw [Finset.prod_range_succ, hinv.prod_eq]
    congr 1
    apply Finset.prod_congr rfl
    intro c hc
    have hci : c < i := Finset.mem_range.mp hc
    have e1 : ¬ (i < c ∧ c < n ∧ i ≤ c ∧ c < n) := by omega
    rw [A2, if_neg e1, A1_row c (by omega) (by omega)]

/-- At the end of the outer loop the invariant makes `sign * det` the determinant. -/
theorem detInv_final (n : Nat) (D : ℚ) (s : DetState) (hinv : DetInv n D n s) :
    (s.sign : ℚ) * s.det = D := by
  rw [← hinv.det_eq, hinv.prod_eq]
  congr 1
  have tri : (toSq n s.A).BlockTriangular id := by
    intro a b hab
    exact hinv.lower a.val b.val b.isLt hab a.isLt
  rw [Matrix.det_of_upperTriangular tri]
  exact (Fin.prod_univ_eq_prod_range (fun c => s.A c c) n).symm

/-- The initial state satisfies the invariant. -/
theorem detInv_init (M : Matrix) (hsq : M.rows_ = M.cols_) :
    DetInv M.rows_ (toSq M.rows_ M.data).det 0 ⟨M.copy.data, 1, 1⟩ := by
  refine ⟨Or.inl rfl, ?_, fun r c hc _ _ => absurd hc (Nat.not_lt_zero c), by simp⟩
  have e : toSq M.rows_ M.copy.data = toSq M.rows_ M.data := by
    ext a b
    simp only [toSq, Matrix.of_apply]
    rw [copy_data, if_pos ⟨a.isLt, hsq ▸ b.isLt⟩]
  show ((1 : Int) : ℚ) * (toSq M.rows_ M.copy.data).det = _
  rw [e]
  simp

theorem detLoop_zero_cnt (n i : Nat) (s : DetState) :
    detLoop n 0 i s = (s.sign : ℚ) * s.det := rfl

theorem detLoop_none (n cnt i : Nat) (s : DetState) (h : detBody n i s = none) :
    detLoop n (cnt + 1) i s = 0 := by
  have e : detLoop n (cnt + 1) i s =
      (match detBody n i s with
        | none => (0 : ℚ)
        | some s1 => detLoop n cnt (i + 1) s1) := rfl
  rw [e, h]

theorem detLoop_some (n cnt i : Nat) (s s1 : DetState) (h : detBody n i s = some s1) :
    detLoop n (cnt + 1) i s = detLoop n cnt (i + 1) s1 := by
  have e : detLoop n (cnt + 1) i s =
      (match detBody n i s with
        | none => (0 : ℚ)
        | some s1 => detLoop n cnt (i + 1) s1) := rfl
  rw [e, h]

/-- The loop returns the determinant or, through the early exit, zero. -/
theorem detLoop_det_or_zero (n : Nat) (D : ℚ) :
    ∀ cnt i s, i + cnt = n → DetInv n D i s →
      detLoop n cnt i s = D ∨ detLoop n cnt i s = 0 := by
  intro cnt
  induction cnt with
  | zero =>
    intro i s h hinv
    have : i = n := by omega
    subst this
    exact Or.inl (detInv_final i D s hinv)
  | succ m ih =>
    intro i s h hinv
    cases hb : detBody n i s with
    | none => exact Or.inr (detLoop_none n m i s hb)
    | some s1 =>
      rw [detLoop_some n m i s s1 hb]
      exact ih (i + 1) s1 (by omega) (detBody_inv n D i s s1 (by omega) hinv hb)

/-- Without a rejected pivot from the pass `i` on, the loop returns the determinant. -/
theorem detLoop_exact (M : Matrix) (D : ℚ) :
    ∀ cnt i s, i + cnt = M.rows_ → DetInv M.rows_ D i s → detStateAt M i = some s →
      (∀ j t, j < M.rows_ → detStateAt M j = some t →
        tol ≤ abs (t.A (selectPivot t.A M.rows_ j) j)) →
      detLoop M.rows_ cnt i s = D := by
  intro cnt
  induction cnt with
  | zero =>
    intro i s h hinv _ _
    have : i = M.rows_ := by omega
    subst this
    exact detInv_final _ D s hinv
  | succ m ih =>
    intro i s h hinv hst hall
    cases hb : detBody M.rows_ i s with
    | none =>
      have h1 := (detBody_none_iff M.rows_ i s).mp hb
      have h2 := hall i s (by omega) hst
      exact absurd h1 (not_lt.mpr h2)
    | some s1 =>
      have hst1 : detStateAt M (i + 1) = some s1 := by
        show (detStateAt M i).bind (detBody M.rows_ i) = some s1
        rw [hst]
        exact hb
      rw [detLoop_some _ m i s s1 hb]
      exact ih (i + 1) s1 (by omega) (detBody_inv M.rows_ D i s s1 (by omega) hinv hb) hst1 hall

/-- A rejected pivot in some pass from `i` on makes the loop return zero. -/
theorem detLoop_zero (M : Matrix) :
    ∀ cnt i s, i + cnt = M.rows_ → detStateAt M i = some s →
      (∃ j t, i ≤ j ∧ j < M.rows_ ∧ detStateAt M j = some t ∧
        abs (t.A (selectPivot t.A M.rows_ j) j) < tol) →
      detLoop M.rows_ cnt i s = 0 := by
  intro cnt
  induction cnt with
  | zero =>
    intro i s h _ hex
    obtain ⟨j, t, h1, h2, _, _⟩ := hex
    omega
  | succ m ih =>
    intro i s h hst hex
    cases hb : detBody M.rows_ i s with
    | none => exact detLoop_none _ m i s hb
    | some s1 =>
      rw [detLoop_some _ m i s s1 hb]
      have hst1 : detStateAt M (i + 1) = some s1 := by
        show (detStateAt M i).bind (detBody M.rows_ i) = some s1
        rw [hst]
        exact hb
      obtain ⟨j, t, h1, h2, h3, h4⟩ := hex
      have hji : j ≠ i := by
        intro hji
        subst hji
        rw [hst] at h3
        have : s = t := Option.some.inj h3
        subst this
        rw [(detBody_none_iff M.rows_ j s).mpr h4] at hb
        exact Option.noConfusion hb
      exact ih (i + 1) s1 (by omega) hst1 ⟨j, t, by omega, h2, h3, h4⟩

theorem determinant_unfold (M : Matrix) (hsq : M.rows_ = M.cols_) (hn : 1 ≤ M.rows_) :
    M.determinant = detLoop M.rows_ M.rows_ 0 ⟨M.copy.data, 1, 1⟩ := by
  unfold Matrix.determinant
  have : ¬ (M.rows_ ≠ M.cols_ ∨ M.rows_ = 0) := by
    intro h
    rcases h with h | h
    · exact h hsq
    · omega
  rw [if_neg this]

/-! ## Scalar multiplication -/

theorem scale_rows (M : Matrix) (a : ℚ) : (M.scale a).rows_ = M.rows_ := rfl

theorem scale_cols (M : Matrix) (a : ℚ) : (M.scale a).cols_ = M.cols_ := rfl

theorem scale_data (M : Matrix) (a : ℚ) (r c : Nat) :
    (M.scale a).data r c = if r < M.rows_ ∧ c < M.cols_ then M.data r c * a else 0 := by
  show forLoop 0 M.rows_ (fun i res =>
      forLoop 0 M.cols_ (fun j res => res.set i j (M.data i j * a)) res)
      (Matrix.zeros M.rows_ M.cols_).data r c = _
  rw [fill_apply]
  rfl

/-! ## The rank loop -/

theorem rankLoop_zero_cnt (m n col : Nat) (s : RankState) : rankLoop m n 0 col s = s.r := rfl

theorem rankLoop_succ (m n cnt col : Nat) (s : RankState) :
    rankLoop m n (cnt + 1) col s =
      if s.row < m then rankLoop m n cnt (col + 1) (rankBody m n col s) else s.r := rfl

/-- Invariant rule for the outer loop of `rank()`: the value returned is the counter of a
state that satisfies the invariant and at which the loop condition fails. -/
theorem rankLoop_inv (m n : Nat) (P : Nat → RankState → Prop)
    (hstep : ∀ col s, col < n → s.row < m → P col s → P (col + 1) (rankBody m n col s)) :
    ∀ cnt col s, col + cnt = n → P col s →
      ∃ col1 s1, P col1 s1 ∧ col1 ≤ n ∧ (col1 = n ∨ m ≤ s1.row) ∧
        rankLoop m n cnt col s = s1.r := by
  intro cnt
  induction cnt with
  | zero =>
    intro col s h hP
    exact ⟨col, s, hP, by omega, Or.inl (by omega), rfl⟩
  | succ k ih =>
    intro col s h hP
    rw [rankLoop_succ]
    by_cases hr : s.row < m
    · rw [if_pos hr]
      exact ih (col + 1) _ (by omega) (hstep col s (by omega) hr hP)
    · rw [if_neg hr]
      exact ⟨col, s, hP, by omega, Or.inr (by omega), rfl⟩

theorem findSel_none (A : Grid) (col : Nat) :
    ∀ cnt i, findSel A col cnt i = none →
      ∀ k, i ≤ k → k < i + cnt → abs (A k col) ≤ tol := by
  intro cnt
  induction cnt with
  | zero =>
    intro i _ k h1 h2
    omega
  | succ c ih =>
    intro i h k h1 h2
    have e : findSel A col (c + 1) i =
        if abs (A i col) > tol then some i else findSel A col c (i + 1) := rfl
    rw [e] at h
    by_cases hc : abs (A i col) > tol
    · rw [if_pos hc] at h
      exact Option.noConfusion h
    · rw [if_neg hc] at h
      by_cases hk : k = i
      · rw [hk]
        exact not_lt.mp hc
      · exact ih (i + 1) h k (by omega) (by omega)

theorem findSel_some (A : Grid) (col : Nat) :
    ∀ cnt i sel, findSel A col cnt i = some sel →
      i ≤ sel ∧ sel < i + cnt ∧ tol < abs (A sel col) ∧
        ∀ k, i ≤ k → k < sel → abs (A k col) ≤ tol := by
  intro cnt
  induction cnt with
  | zero =>
    intro i sel h
    exact Option.noConfusion h
  | succ c ih =>
    intro i sel h
    have e : findSel A col (c + 1) i =
        if abs (A i col) > tol then some i else findSel A col c (i + 1) := rfl
    rw [e] at h
    by_cases hc : abs (A i col) > tol
    · rw [if_pos hc] at h
      have hs : i = sel := Option.some.inj h
      subst hs
      exact ⟨le_refl _, by omega, hc, fun k h1 h2 => by omega⟩
    · rw [if_neg hc] at h
      obtain ⟨h1, h2, h3, h4⟩ := ih (i + 1) sel h
      refine ⟨by omega, by omega, h3, ?_⟩
      intro k hk1 hk2
      by_cases hk : k = i
      · rw [hk]
        exact not_lt.mp hc
      · exact h4 k (by omega) hk2

theorem rankBody_none (m n col : Nat) (s : RankState)
    (h : findSel s.A col (m - s.row) s.row = none) : rankBody m n col s = s := by
  unfold rankBody
  rw [h]

theorem rankBody_some (m n col sel : Nat) (s : RankState)
    (h : findSel s.A col (m - s.row) s.row = some sel) :
    rankBody m n col s =
      ⟨rankEliminate (if sel ≠ s.row then s.A.swapRows s.row sel else s.A) m n s.row col,
        s.row + 1, s.r + 1⟩ := by
  unfold rankBody
  rw [h]

/-- The innermost loop of the elimination of `rank()`. -/
theorem rankElimInner_apply (n row col k : Nat) (f : ℚ) (g : Grid) (hk : k ≠ row)
    (hcn : col ≤ n) (r c : Nat) :
    forLoop col n (fun j A => A.set k j (A k j - f * A row j)) g r c =
      if r = k ∧ col ≤ c ∧ c < n then g r c - f * g row c else g r c := by
  revert r c
  refine forLoop_inv
    (fun b (e : Grid) => ∀ r c, e r c =
      if r = k ∧ col ≤ c ∧ c < b then g r c - f * g row c else g r c)
    col n _ g hcn ?_ ?_
  · intro r c
    have : ¬ (r = k ∧ col ≤ c ∧ c < col) := by omega
    rw [if_neg this]
  · intro b t hb _ ht r c
    rw [Grid.set_apply, ht k b, ht row b, ht r c]
    have e1 : ¬ (k = k ∧ col ≤ b ∧ b < b) := by omega
    have e2 : ¬ (row = k ∧ col ≤ b ∧ b < b) := by omega
    rw [if_neg e1, if_neg e2]
    by_cases h1 : r = k ∧ c = b
    · obtain ⟨rfl, rfl⟩ := h1
      have e3 : r = r ∧ col ≤ c ∧ c < c + 1 := ⟨rfl, hb, Nat.lt_succ_self c⟩
      rw [if_pos ⟨rfl, rfl⟩, if_pos e3]
    · rw [if_neg h1]
      by_cases h2 : r = k ∧ col ≤ c ∧ c < b
      · have e3 : r = k ∧ col ≤ c ∧ c < b + 1 := ⟨h2.1, h2.2.1, by omega⟩
        rw [if_pos h2, if_pos e3]
      · have e3 : ¬ (r = k ∧ col ≤ c ∧ c < b + 1) := by
          intro h3
          rcases h3 with ⟨a1, a2, a3⟩
          by_cases hcb : c = b
          · exact h1 ⟨a1, hcb⟩
          · exact h2 ⟨a1, a2, by omega⟩
        rw [if_neg h2, if_neg e3]

/-- The elimination of `rank()` in closed form. -/
theorem rankEliminate_apply (g : Grid) (m n row col : Nat) (hrm : row < m) (hcn : col ≤ n)
    (r c : Nat) :
    rankEliminate g m n row col r c =
      if row < r ∧ r < m ∧ col ≤ c ∧ c < n then g r c - g r col / g row col * g row c
      else g r c := by
  unfold rankEliminate
  revert r c
  refine forLoop_inv
    (fun b (e : Grid) => ∀ r c, e r c =
      if row < r ∧ r < b ∧ col ≤ c ∧ c < n then g r c - g r col / g row col * g row c
      else g r c)
    (row + 1) m _ g hrm ?_ ?_
  · intro r c
    have : ¬ (row < r ∧ r < row + 1 ∧ col ≤ c ∧ c < n) := by omega
    rw [if_neg this]
  · intro k t hk _ ht r c
    have hkr : k ≠ row := by omega
    have tk : ∀ c, t k c = g k c := by
      intro c
      rw [ht]
      have : ¬ (row < k ∧ k < k ∧ col ≤ c ∧ c < n) := by omega
      rw [if_neg this]
    have tr : ∀ c, t row c = g row c := by
      intro c
      rw [ht]
      have : ¬ (row < row ∧ row < k ∧ col ≤ c ∧ c < n) := by omega
      rw [if_neg this]
    have key : (if t k col / t row col ≠ 0 then
          forLoop col n (fun j A => A.set k j (A k j - t k col / t row col * A row j)) t
        else t) r c =
        if r = k ∧ col ≤ c ∧ c < n then t r c - t k col / t row col * t row c else t r c := by
      by_cases hf : t k col / t row col = 0
      · rw [if_neg (not_not.mpr hf), hf]
        simp
      · rw [if_pos hf, rankElimInner_apply n row col k _ t hkr hcn]
    show (if t k col / t row col ≠ 0 then
        forLoop col n (fun j A => A.set k j (A k j - t k col / t row col * A row j)) t
      else t) r c = _
    rw [key]
    by_cases h1 : r = k
    · subst h1
      by_cases h2 : col ≤ c ∧ c < n
      · have e1 : r = r ∧ col ≤ c ∧ c < n := ⟨rfl, h2⟩
        have e2 : row < r ∧ r < r + 1 ∧ col ≤ c ∧ c < n := ⟨by omega, by omega, h2⟩
        rw [if_pos e1, if_pos e2, tk, tk, tr, tr]
      · have e1 : ¬ (r = r ∧ col ≤ c ∧ c < n) := fun h => h2 h.2
        have e2 : ¬ (row < r ∧ r < r + 1 ∧ col ≤ c ∧ c < n) := fun h => h2 h.2.2
        rw [if_neg e1, if_neg e2, tk]
    · have e1 : ¬ (r = k ∧ col ≤ c ∧ c < n) := fun h => h1 h.1
      rw [if_neg e1, ht]
      by_cases h2 : row < r ∧ r < k ∧ col ≤ c ∧ c < n
      · have e2 : row < r ∧ r < k + 1 ∧ col ≤ c ∧ c < n := ⟨h2.1, by omega, h2.2.2⟩
        rw [if_pos h2, if_pos e2]
      · have e2 : ¬ (row < r ∧ r < k + 1 ∧ col ≤ c ∧ c < n) := by
          intro h
          exact h2 ⟨h.1, by omega, h.2.2⟩
        rw [if_neg h2, if_neg e2]

theorem rank_unfold (M : Matrix) :
    M.rank = rankLoop M.rows_ M.cols_ M.cols_ 0 ⟨M.copy.data, 0, 0⟩ := rfl

/-- The counter of `rank()` stays equal to the pivot row, which stays within the rows, and
it never exceeds the number of columns dealt with. -/
theorem rankLoop_le_min (m n : Nat) :
    ∀ cnt col s, col + cnt = n → s.r = s.row → s.row ≤ m → s.r ≤ col →
      rankLoop m n cnt col s ≤ min m n := by
  intro cnt col s h h1 h2 h3
  obtain ⟨col1, s1, ⟨p1, p2, p3⟩, hc, _, hres⟩ :=
    rankLoop_inv m n (fun col s => s.r = s.row ∧ s.row ≤ m ∧ s.r ≤ col)
      (by
        intro col s _ hrow hP
        obtain ⟨q1, q2, q3⟩ := hP
        cases hf : findSel s.A col (m - s.row) s.row with
        | none =>
          rw [rankBody_none m n col s hf]
          exact ⟨q1, q2, by omega⟩
        | some sel =>
          rw [rankBody_some m n col sel s hf]
          exact ⟨by show s.r + 1 = s.row + 1; omega, by show s.row + 1 ≤ m; omega,
            by show s.r + 1 ≤ col + 1; omega⟩)
      cnt col s h ⟨h1, h2, h3⟩
  rw [hres]
  exact Nat.le_min.mpr ⟨by omega, by omega⟩

/-- The value of `rank()` is zero exactly when no entry of the copy exceeds the
tolerance. -/
theorem rankLoop_zero_iff (m n : Nat) (A0 : Grid) :
    rankLoop m n n 0 ⟨A0, 0, 0⟩ = 0 ↔ ∀ i j, i < m → j < n → abs (A0 i j) ≤ tol := by
  obtain ⟨col1, s1, ⟨p1, p2⟩, hc, hex, hres⟩ :=
    rankLoop_inv m n
      (fun col s =>
        (s.r = 0 → s.A = A0 ∧ s.row = 0 ∧ ∀ i j, i < m → j < col → abs (A0 i j) ≤ tol) ∧
          (s.r ≠ 0 → ∃ i j, i < m ∧ j < n ∧ tol < abs (A0 i j)))
      (by
        intro col s hcol hrow hP
        obtain ⟨q1, q2⟩ := hP
        by_cases hr : s.r = 0
        · obtain ⟨a1, a2, a3⟩ := q1 hr
          cases hf : findSel s.A col (m - s.row) s.row with
          | none =>
            rw [rankBody_none m n col s hf]
            refine ⟨fun _ => ⟨a1, a2, ?_⟩, fun h => absurd hr h⟩
            intro i j hi hj
            by_cases hjc : j = col
            · have := findSel_none s.A col (m - s.row) s.row hf i (by omega) (by omega)
              rw [a1] at this
              rw [hjc]
              exact this
            · exact a3 i j hi (by omega)
          | some sel =>
            rw [rankBody_some m n col sel s hf]
            obtain ⟨b1, b2, b3, _⟩ := findSel_some s.A col (m - s.row) s.row sel hf
            rw [a1] at b3
            refine ⟨fun h => ?_, fun _ => ⟨sel, col, by omega, hcol, b3⟩⟩
            exact absurd h (Nat.succ_ne_zero s.r)
        · have hne : (rankBody m n col s).r ≠ 0 := by
            cases hf : findSel s.A col (m - s.row) s.row with
            | none =>
              rw [rankBody_none m n col s hf]
              exact hr
            | some sel =>
              rw [rankBody_some m n col sel s hf]
              exact Nat.succ_ne_zero s.r
          exact ⟨fun h => absurd h hne, fun _ => q2 hr⟩)
      n 0 ⟨A0, 0, 0⟩ (by omega)
      ⟨fun _ => ⟨rfl, rfl, fun i j _ hj => absurd hj (Nat.not_lt_zero j)⟩,
        fun h => absurd rfl h⟩
  rw [hres]
  constructor
  · intro h0 i j hi hj
    obtain ⟨_, a2, a3⟩ := p1 h0
    rcases hex with h | h
    · exact a3 i j hi (by omega)
    · omega
  · intro hall
    by_contra hne
    obtain ⟨i, j, hi, hj, hgt⟩ := p2 hne
    exact absurd (hall i j hi hj) (not_le.mpr hgt)

theorem rank_zero_iff (M : Matrix) :
    M.rank = 0 ↔ ∀ i j, i < M.rows_ → j < M.cols_ → abs (M.data i j) ≤ tol := by
  rw [rank_unfold, rankLoop_zero_iff]
  constructor
  · intro h i j hi hj
    have := h i j hi hj
    rw [copy_data, if_pos ⟨hi, hj⟩] at this
    exact this
  · intro h i j hi hj
    rw [copy_data, if_pos ⟨hi, hj⟩]
    exact h i j hi hj

/-- On the copy of the identity matrix every pass of `rank()` finds its pivot on the
diagonal and leaves the grid as it is. -/
theorem rankBody_identity (n col : Nat) (hcol : col < n) :
    rankBody n n col ⟨(identity n).copy.data, col, col⟩ =
      ⟨(identity n).copy.data, col + 1, col + 1⟩ := by
  have hA : ∀ r c, (identity n).copy.data r c =
      if r < n ∧ c < n then (if r = c then 1 else 0) else 0 := by
    intro r c
    rw [copy_data]
    rfl
  have hdiag : (identity n).copy.data col col = 1 := by
    rw [hA, if_pos ⟨hcol, hcol⟩, if_pos rfl]
  have hsel : findSel (identity n).copy.data col (n - col) col = some col := by
    obtain ⟨k, hk⟩ : ∃ k, n - col = k + 1 := ⟨n - col - 1, by omega⟩
    rw [hk]
    show (if abs ((identity n).copy.data col col) > tol then some col
      else findSel (identity n).copy.data col k (col + 1)) = some col
    rw [hdiag, if_pos]
    rw [abs_one]
    unfold tol
    norm_num
  rw [rankBody_some n n col col _ hsel]
  have hno : ¬ (col ≠ col) := fun h => h rfl
  simp only [hno, if_false]
  congr 1
  funext r c
  rw [rankEliminate_apply _ n n col col hcol (Nat.le_of_lt hcol)]
  by_cases h : col < r ∧ r < n ∧ col ≤ c ∧ c < n
  · rw [if_pos h]
    have h0 : (identity n).copy.data r col = 0 := by
      rw [hA, if_pos ⟨h.2.1, hcol⟩, if_neg (by omega)]
    rw [h0]
    simp
  · rw [if_neg h]

/-! ## The value of `rank()` against the rank of the matrix -/

/-- A matrix whose rows all lie in the row space of another has at most its rank. -/
theorem rank_le_of_rows_mem_span (m n : Nat) (T1 T : RectMat m n)
    (h : ∀ i, T1 i ∈ Submodule.span ℚ (Set.range T)) : T1.rank ≤ T.rank := by
  rw [Matrix.rank_eq_finrank_span_row, Matrix.rank_eq_finrank_span_row]
  apply Submodule.finrank_mono
  apply Submodule.span_le.mpr
  rintro _ ⟨i, rfl⟩
  exact h i

/-- Rows `0..r-1` that each own a column where they are non-zero and every row below them
is zero are linearly independent, so the rank is at least `r`. -/
theorem le_rank_of_pivots (m n r : Nat) (G : Grid) (hr : r ≤ m)
    (hp : ∀ k, k < r → ∃ c, c < n ∧ G k c ≠ 0 ∧ ∀ i, k < i → i < m → G i c = 0) :
    r ≤ (toRect m n G).rank := by
  choose! c hc1 hc2 hc3 using hp
  let v : Fin r → (Fin n → ℚ) := fun k => toRect m n G ⟨k.val, lt_of_lt_of_le k.isLt hr⟩
  have hli : LinearIndependent ℚ v := by
    rw [Fintype.linearIndependent_iff]
    intro g hg
    have step : ∀ b, ∀ k : Fin r, k.val < b → g k = 0 := by
      intro b
      induction b with
      | zero =>
        intro k hk
        omega
      | succ b ih =>
        intro k hk
        by_cases hkb : k.val < b
        · exact ih k hkb
        · have h1 := congrFun hg ⟨c k.val, hc1 k.val k.isLt⟩
          simp only [Finset.sum_apply, Pi.smul_apply, smul_eq_mul, Pi.zero_apply] at h1
          rw [Finset.sum_eq_single k] at h1
          · rcases mul_eq_zero.mp h1 with h | h
            · exact h
            · exact absurd h (hc2 k.val k.isLt)
          · intro j _ hjk
            have hjk1 : j.val ≠ k.val := fun h => hjk (Fin.ext h)
            by_cases hj : j.val < k.val
            · rw [ih j (by omega)]
              simp
            · have e : v j ⟨c k.val, hc1 k.val k.isLt⟩ = 0 :=
                hc3 k.val k.isLt j.val (by omega) (by omega)
              rw [e]
              simp
          · intro h
            exact absurd (Finset.mem_univ k) h
    intro k
    exact step (k.val + 1) k (by omega)
  rw [Matrix.rank_eq_finrank_span_row]
  have h1 : Module.finrank ℚ (Submodule.span ℚ (Set.range v)) = r := by
    rw [finrank_span_eq_card hli]
    simp
  have h2 : Submodule.span ℚ (Set.range v) ≤ Submodule.span ℚ (Set.range (toRect m n G)) := by
    apply Submodule.span_mono
    rintro _ ⟨k, rfl⟩
    exact ⟨_, rfl⟩
  calc r = Module.finrank ℚ (Submodule.span ℚ (Set.range v)) := h1.symm
    _ ≤ Module.finrank ℚ (Submodule.span ℚ (Set.range (toRect m n G))) :=
      Submodule.finrank_mono h2

theorem swapIf_apply (g : Grid) (row sel i : Nat) :
    (if sel ≠ row then g.swapRows row sel else g) i =
      if i = sel then g row else if i = row then g sel else g i := by
  by_cases h : sel = row
  · subst h
    by_cases hi : i = sel
    · simp [hi]
    · simp [hi]
  · rw [if_pos h, Grid.swapRows_apply]

/-- One pass of the outer loop of `rank()` keeps the invariant. -/
theorem rankBody_inv (m n R0 col : Nat) (s : RankState) (hcol : col < n) (hrow : s.row < m)
    (hP : RankInv m n R0 col s) : RankInv m n R0 (col + 1) (rankBody m n col s) := by
  obtain ⟨q1, q2, T, hT1, hT2, hT3⟩ := hP
  cases hf : findSel s.A col (m - s.row) s.row with
  | none =>
    rw [rankBody_none m n col s hf]
    exact ⟨q1, q2, T, hT1, fun i j hi hj hc => hT2 i j hi hj (by omega), hT3⟩
  | some sel =>
    rw [rankBody_some m n col sel s hf]
    obtain ⟨b1, b2, b3, _⟩ := findSel_some s.A col (m - s.row) s.row sel hf
    have hsel : sel < m := by omega
    generalize hA1 : (if sel ≠ s.row then s.A.swapRows s.row sel else s.A) = A1
    have A1_apply : ∀ i, A1 i = if i = sel then s.A s.row else if i = s.row then s.A sel
        else s.A i := by
      intro i
      rw [← hA1, swapIf_apply]
    obtain ⟨T1, hT1def⟩ : ∃ T1 : Grid,
        T1 = (if sel ≠ s.row then T.swapRows s.row sel else T) := ⟨_, rfl⟩
    have T1_apply : ∀ i, T1 i = if i = sel then T s.row else if i = s.row then T sel
        else T i := by
      intro i
      rw [hT1def, swapIf_apply]
    -- the rows of `T1` are rows of `T`
    have T1_row : ∀ i, i < m → ∃ i1, i1 < m ∧ T1 i = T i1 ∧ (s.row ≤ i → s.row ≤ i1) ∧
        (i < s.row → i1 = i) := by
      intro i hi
      rw [T1_apply]
      by_cases h1 : i = sel
      · rw [if_pos h1]
        exact ⟨s.row, hrow, rfl, fun _ => le_refl _, fun h => by omega⟩
      · by_cases h2 : i = s.row
        · rw [if_neg h1, if_pos h2]
          exact ⟨sel, hsel, rfl, fun _ => b1, fun h => by omega⟩
        · rw [if_neg h1, if_neg h2]
          exact ⟨i, hi, rfl, fun h => h, fun _ => rfl⟩
    have agree1 : ∀ i j, i < m → j < n → col ≤ j → T1 i j = A1 i j := by
      intro i j hi hj hc
      rw [T1_apply, A1_apply]
      by_cases h1 : i = sel
      · rw [if_pos h1, if_pos h1]
        exact hT2 s.row j hrow hj hc
      · by_cases h2 : i = s.row
        · rw [if_neg h1, if_neg h1, if_pos h2, if_pos h2]
          exact hT2 sel j hsel hj hc
        · rw [if_neg h1, if_neg h1, if_neg h2, if_neg h2]
          exact hT2 i j hi hj hc
    have piv : A1 s.row col ≠ 0 := by
      have e : A1 s.row col = s.A sel col := by
        rw [A1_apply]
        by_cases h1 : s.row = sel
        · rw [if_pos h1, h1]
        · rw [if_neg h1, if_pos rfl]
      rw [e]
      intro h0
      rw [h0, abs_zero] at b3
      exact absurd tol_pos (not_lt.mpr (le_of_lt b3))
    have rank1 : (toRect m n T1).rank ≤ (toRect m n T).rank := by
      apply rank_le_of_rows_mem_span
      intro i
      obtain ⟨i1, hi1, he, _, _⟩ := T1_row i.val i.isLt
      have : toRect m n T1 i = toRect m n T ⟨i1, hi1⟩ := by
        funext j
        show T1 i.val j.val = T i1 j.val
        rw [he]
      rw [this]
      exact Submodule.subset_span ⟨_, rfl⟩
    obtain ⟨T2, hT2def⟩ : ∃ T2 : Grid, T2 = fun i j =>
        if s.row < i ∧ i < m then T1 i j - A1 i col / A1 s.row col * T1 s.row j
        else T1 i j := ⟨_, rfl⟩
    have T2_apply : ∀ i j, T2 i j =
        if s.row < i ∧ i < m then T1 i j - A1 i col / A1 s.row col * T1 s.row j
        else T1 i j := by
      intro i j
      rw [hT2def]
    have rank2 : (toRect m n T2).rank ≤ (toRect m n T1).rank := by
      apply rank_le_of_rows_mem_span
      intro i
      by_cases h : s.row < i.val ∧ i.val < m
      · have : toRect m n T2 i = toRect m n T1 i -
            (A1 i.val col / A1 s.row col) • toRect m n T1 ⟨s.row, hrow⟩ := by
          funext j
          show T2 i.val j.val = T1 i.val j.val - A1 i.val col / A1 s.row col * T1 s.row j.val
          rw [T2_apply, if_pos h]
        rw [this]
        exact Submodule.sub_mem _ (Submodule.subset_span ⟨_, rfl⟩)
          (Submodule.smul_mem _ _ (Submodule.subset_span ⟨_, rfl⟩))
      · have : toRect m n T2 i = toRect m n T1 i := by
          funext j
          show T2 i.val j.val = T1 i.val j.val
          rw [T2_apply, if_neg h]
        rw [this]
        exact Submodule.subset_span ⟨_, rfl⟩
    refine ⟨by show s.r + 1 = s.row + 1; omega, by show s.row + 1 ≤ m; omega, T2,
      le_trans rank2 (le_trans rank1 hT1), ?_, ?_⟩
    · intro i j hi hj hc
      show T2 i j = rankEliminate A1 m n s.row col i j
      rw [rankEliminate_apply A1 m n s.row col hrow (Nat.le_of_lt hcol), T2_apply]
      by_cases h : s.row < i
      · rw [if_pos ⟨h, hi⟩, if_pos ⟨h, hi, by omega, hj⟩,
          agree1 i j hi hj (by omega), agree1 s.row j hrow hj (by omega)]
      · have e1 : ¬ (s.row < i ∧ i < m) := fun h1 => h h1.1
        have e2 : ¬ (s.row < i ∧ i < m ∧ col ≤ j ∧ j < n) := fun h1 => h h1.1
        rw [if_neg e1, if_neg e2, agree1 i j hi hj (by omega)]
    · intro k hk
      have hk1 : k < s.r + 1 := hk
      by_cases hkr : k < s.r
      · obtain ⟨c, hc1, hc2, hc3⟩ := hT3 k hkr
        have zero1 : ∀ i, k < i → i < m → T1 i c = 0 := by
          intro i hki hi
          obtain ⟨i1, hi1, he, h1, h2⟩ := T1_row i hi
          rw [he]
          by_cases hir : s.row ≤ i
          · exact hc3 i1 (by have := h1 hir; omega) hi1
          · rw [h2 (by omega)]
            exact hc3 i hki hi
        refine ⟨c, hc1, ?_, ?_⟩
        · have e1 : ¬ (s.row < k ∧ k < m) := by omega
          rw [T2_apply, if_neg e1]
          obtain ⟨i1, _, he, _, h2⟩ := T1_row k (by omega)
          rw [he, h2 (by omega)]
          exact hc2
        · intro i hki hi
          rw [T2_apply]
          by_cases h : s.row < i ∧ i < m
          · rw [if_pos h, zero1 i hki hi, zero1 s.row (by omega) hrow]
            ring
          · rw [if_neg h]
            exact zero1 i hki hi
      · have hkeq : k = s.row := by omega
        subst hkeq
        refine ⟨col, hcol, ?_, ?_⟩
        · have e1 : ¬ (s.row < s.row ∧ s.row < m) := by omega
          rw [T2_apply, if_neg e1, agree1 s.row col hrow hcol (le_refl _)]
          exact piv
        · intro i hki hi
          rw [T2_apply, if_pos ⟨hki, hi⟩, agree1 i col hi hcol (le_refl _),
            agree1 s.row col hrow hcol (le_refl _)]
          field_simp

/-- The value of `rank()` is at most the rank of the grid it starts from. -/
theorem rankLoop_le_rank (m n : Nat) (A0 : Grid) :
    rankLoop m n n 0 ⟨A0, 0, 0⟩ ≤ (toRect m n A0).rank := by
  obtain ⟨col1, s1, ⟨p1, p2, T, hT1, _, hT3⟩, _, _, hres⟩ :=
    rankLoop_inv m n (RankInv m n (toRect m n A0).rank)
      (fun col s hcol hrow hP => rankBody_inv m n _ col s hcol hrow hP)
      n 0 ⟨A0, 0, 0⟩ (by omega)
      ⟨rfl, Nat.zero_le m, A0, le_refl _, fun _ _ _ _ _ => rfl,
        fun k hk => absurd hk (Nat.not_lt_zero k)⟩
  rw [hres]
  exact le_trans (le_rank_of_pivots m n s1.r T (by omega) hT3) hT1

theorem toRect_copy (M : Matrix) :
    toRect M.rows_ M.cols_ M.copy.data = toRect M.rows_ M.cols_ M.data := by
  funext i j
  show M.copy.data i.val j.val = M.data i.val j.val
  rw [copy_data, if_pos ⟨i.isLt, j.isLt⟩]

theorem rank_le_matrix_rank (M : Matrix) :
    M.rank ≤ (toRect M.rows_ M.cols_ M.data).rank := by
  rw [rank_unfold, ← toRect_copy]
  exact rankLoop_le_rank M.rows_ M.cols_ M.copy.data

/-- A grid whose rows are multiples of one row vector has rank at most one. -/
theorem toRect_rank_le_one (m n : Nat) (G : Grid) (mu v : Nat → ℚ)
    (h : ∀ i j, i < m → j < n → G i j = mu i * v j) : (toRect m n G).rank ≤ 1 := by
  have e : toRect m n G =
      (Matrix.of fun (i : Fin m) (_ : Fin 1) => mu i.val) *
        (Matrix.of fun (_ : Fin 1) (j : Fin n) => v j.val) := by
    funext i j
    show G i.val j.val = _
    rw [Matrix.mul_apply, h i.val j.val i.isLt j.isLt]
    simp
  rw [e]
  exact le_trans (Matrix.rank_mul_le_left _ _) (Matrix.rank_le_width _)

/-! ## The same loops with a rounding step -/

/-- The rounding gives the `double` nearest to one tenth. -/
theorem roundDouble_tenth :
    roundDouble (1 / 10) = 3602879701896397 / 36028797018963968 := by decide!

/-- A result halfway between two `double`s goes to the one with the even significand. -/
theorem roundDouble_tie :
    roundDouble (1 + 1 / 9007199254740992) = 1 ∧
      roundDouble (1 + 3 / 9007199254740992) = 1 + 2 / 4503599627370496 := by decide!

theorem addWith_id : Matrix.addWith id = Matrix.add := rfl

theorem scaleWith_id : Matrix.scaleWith id = Matrix.scale := rfl

theorem addWith_rows (rnd : ℚ → ℚ) (M N : Matrix) (h1 : M.rows_ = N.rows_)
    (h2 : M.cols_ = N.cols_) : (M.addWith rnd N).rows_ = M.rows_ := by
  unfold Matrix.addWith
  simp [h1, h2, Matrix.zeros]

theorem addWith_cols (rnd : ℚ → ℚ) (M N : Matrix) (h1 : M.rows_ = N.rows_)
    (h2 : M.cols_ = N.cols_) : (M.addWith rnd N).cols_ = M.cols_ := by
  unfold Matrix.addWith
  simp [h1, h2, Matrix.zeros]

theorem addWith_data (rnd : ℚ → ℚ) (M N : Matrix) (h1 : M.rows_ = N.rows_)
    (h2 : M.cols_ = N.cols_) (r c : Nat) :
    (M.addWith rnd N).data r c =
      if r < M.rows_ ∧ c < M.cols_ then rnd (M.data r c + N.data r c) else 0 := by
  unfold Matrix.addWith
  simp only [h1, h2, ne_eq, not_true_eq_false, or_self, if_false, Matrix.zeros]
  rw [fill_apply]
  rfl

theorem scaleWith_rows (rnd : ℚ → ℚ) (M : Matrix) (a : ℚ) :
    (M.scaleWith rnd a).rows_ = M.rows_ := rfl

theorem scaleWith_cols (rnd : ℚ → ℚ) (M : Matrix) (a : ℚ) :
    (M.scaleWith rnd a).cols_ = M.cols_ := rfl

theorem scaleWith_data (rnd : ℚ → ℚ) (M : Matrix) (a : ℚ) (r c : Nat) :
    (M.scaleWith rnd a).data r c =
      if r < M.rows_ ∧ c < M.cols_ then rnd (M.data r c * a) else 0 := by
  show forLoop 0 M.rows_ (fun i res =>
      forLoop 0 M.cols_ (fun j res => res.set i j (rnd (M.data i j * a))) res)
      (Matrix.zeros M.rows_ M.cols_).data r c = _
  rw [fill_apply]
  rfl

/-- In exact arithmetic the two ways of adding three matrices of identical dimensions give
the same dimensions and equal entries. -/
theorem add_add_exact (A B C : Matrix) (h1 : A.rows_ = B.rows_) (h2 : A.cols_ = B.cols_)
    (h3 : B.rows_ = C.rows_) (h4 : B.cols_ = C.cols_) :
    (A.add (B.add C)).Same ((A.add B).add C) := by
  have bcr := add_rows B C h3 h4
  have bcc := add_cols B C h3 h4
  have abr := add_rows A B h1 h2
  have abc := add_cols A B h1 h2
  have e1 : A.rows_ = (B.add C).rows_ := by rw [bcr]; exact h1
  have e2 : A.cols_ = (B.add C).cols_ := by rw [bcc]; exact h2
  have e3 : (A.add B).rows_ = C.rows_ := by rw [abr, h1]; exact h3
  have e4 : (A.add B).cols_ = C.cols_ := by rw [abc, h2]; exact h4
  refine ⟨?_, ?_, ?_⟩
  · rw [add_rows A _ e1 e2, add_rows _ C e3 e4, abr]
  · rw [add_cols A _ e1 e2, add_cols _ C e3 e4, abc]
  · intro i j hi hj
    rw [add_rows A _ e1 e2] at hi
    rw [add_cols A _ e1 e2] at hj
    have hA : i < A.rows_ ∧ j < A.cols_ := ⟨hi, hj⟩
    have hB : i < B.rows_ ∧ j < B.cols_ := ⟨h1 ▸ hi, h2 ▸ hj⟩
    rw [add_data A _ e1 e2, add_data _ C e3 e4, add_data B C h3 h4, add_data A B h1 h2,
      abr, abc]
    rw [if_pos hA, if_pos hB, if_pos hA, if_pos hA, add_assoc]

/-- In exact arithmetic scaling by `s` and then by `t` gives the same dimensions and the
same entries as scaling once by `s * t`. -/
theorem scale_twice_entries (A : Matrix) (s t : ℚ) :
    ((A.scale s).scale t).Same (A.scale (s * t)) := by
  refine ⟨rfl, rfl, ?_⟩
  intro i j hi hj
  have h : i < A.rows_ ∧ j < A.cols_ := ⟨hi, hj⟩
  have h1 : i < (A.scale s).rows_ ∧ j < (A.scale s).cols_ := h
  rw [scale_data, scale_data, scale_data, if_pos h1, if_pos h, if_pos h, mul_assoc]

/-! ## The claims -/

/-- C1: for a square matrix with at least one row, `determinant()` returns the determinant
of the matrix or 0; it returns the determinant when no selected pivot is below the
tolerance, 0 when some selected pivot is, and so 0 for every singular matrix. -/
theorem determinant_exact_or_zero (M : Matrix) (hsq : M.rows_ = M.cols_) (hn : 1 ≤ M.rows_) :
    (M.determinant = (toSq M.rows_ M.data).det ∨ M.determinant = 0) ∧
      ((∀ i s, i < M.rows_ → detStateAt M i = some s →
          tol ≤ abs (s.A (selectPivot s.A M.rows_ i) i)) →
        M.determinant = (toSq M.rows_ M.data).det) ∧
      ((∃ i s, i < M.rows_ ∧ detStateAt M i = some s ∧
          abs (s.A (selectPivot s.A M.rows_ i) i) < tol) →
        M.determinant = 0) ∧
      ((toSq M.rows_ M.data).det = 0 → M.determinant = 0) := by
  have hu := determinant_unfold M hsq hn
  have hinit := detInv_init M hsq
  have hor := detLoop_det_or_zero M.rows_ _ M.rows_ 0 _ (by omega) hinit
  rw [← hu] at hor
  refine ⟨hor, ?_, ?_, ?_⟩
  · intro hall
    rw [hu]
    exact detLoop_exact M _ M.rows_ 0 _ (by omega) hinit rfl hall
  · rintro ⟨i, s, h1, h2, h3⟩
    rw [hu]
    exact detLoop_zero M M.rows_ 0 _ (by omega) rfl ⟨i, s, Nat.zero_le i, h1, h2, h3⟩
  · intro h0
    rcases hor with h | h
    · rw [h, h0]
    · exact h

theorem determinant_exact_or_zero_witness :
    exampleC.rows_ = exampleC.cols_ ∧ 1 ≤ exampleC.rows_ ∧
      ((exampleC.determinant = (toSq exampleC.rows_ exampleC.data).det ∨
          exampleC.determinant = 0) ∧
        ((∀ i s, i < exampleC.rows_ → detStateAt exampleC i = some s →
            tol ≤ abs (s.A (selectPivot s.A exampleC.rows_ i) i)) →
          exampleC.determinant = (toSq exampleC.rows_ exampleC.data).det) ∧
        ((∃ i s, i < exampleC.rows_ ∧ detStateAt exampleC i = some s ∧
            abs (s.A (selectPivot s.A exampleC.rows_ i) i) < tol) →
          exampleC.determinant = 0) ∧
        ((toSq exampleC.rows_ exampleC.data).det = 0 → exampleC.determinant = 0)) :=
  ⟨by decide, by decide, determinant_exact_or_zero exampleC (by decide) (by decide)⟩

/-- C2: for `A` of size m×n and `B` of size n×p, `multiply` gives the m×p matrix whose
entry `(i, j)` is the sum over `k` of `A(i,k) * B(k,j)`, and it is the very matrix that the
triple loop without the test on `aik` gives. -/
theorem multiply_eq_textbook (A B : Matrix) (h : A.cols_ = B.rows_) :
    (A.multiply B).rows_ = A.rows_ ∧ (A.multiply B).cols_ = B.cols_ ∧
      (∀ i j, i < A.rows_ → j < B.cols_ →
        (A.multiply B).data i j = ∑ k in Finset.range A.cols_, A.data i k * B.data k j) ∧
      A.multiply B = A.multiplyTextbook B := by
  refine ⟨multiply_rows A B h, multiply_cols A B h, ?_, ?_⟩
  · intro i j hi hj
    rw [multiply_data A B h, if_pos ⟨hi, hj⟩]
  · apply Matrix.ext_fields
    · rw [multiply_rows A B h, multiplyTextbook_rows A B h]
    · rw [multiply_cols A B h, multiplyTextbook_cols A B h]
    · intro r c
      rw [multiply_data A B h, multiplyTextbook_data A B h]

theorem multiply_eq_textbook_witness :
    exampleE.cols_ = exampleF.rows_ ∧
      ((exampleE.multiply exampleF).rows_ = exampleE.rows_ ∧
        (exampleE.multiply exampleF).cols_ = exampleF.cols_ ∧
        (∀ i j, i < exampleE.rows_ → j < exampleF.cols_ →
          (exampleE.multiply exampleF).data i j =
            ∑ k in Finset.range exampleE.cols_, exampleE.data i k * exampleF.data k j) ∧
        exampleE.multiply exampleF = exampleE.multiplyTextbook exampleF) :=
  ⟨by decide, multiply_eq_textbook exampleE exampleF (by decide)⟩

/-- C3: `add` returns the empty 0×0 matrix when the operands differ in rows or in columns,
`multiply` returns it when the columns of the left operand differ from the rows of the
right one, and the sum of two 0×0 matrices is that same empty matrix. -/
theorem mismatch_returns_empty (A B : Matrix) :
    ((A.rows_ ≠ B.rows_ ∨ A.cols_ ≠ B.cols_) → A.add B = Matrix.empty) ∧
      (A.cols_ ≠ B.rows_ → A.multiply B = Matrix.empty) ∧
      Matrix.empty.rows_ = 0 ∧ Matrix.empty.cols_ = 0 ∧
      (∀ X Y : Matrix, X.rows_ = 0 → X.cols_ = 0 → Y.rows_ = 0 → Y.cols_ = 0 →
        X.add Y = Matrix.empty) := by
  refine ⟨?_, ?_, rfl, rfl, ?_⟩
  · intro h
    unfold Matrix.add
    rw [if_pos h]
  · intro h
    unfold Matrix.multiply
    rw [if_pos h]
  · intro X Y hx1 hx2 hy1 hy2
    apply Matrix.ext_fields
    · rw [add_rows X Y (by omega) (by omega), hx1]; rfl
    · rw [add_cols X Y (by omega) (by omega), hx2]; rfl
    · intro r c
      rw [add_data X Y (by omega) (by omega), hx1]
      simp [Matrix.empty]

theorem mismatch_returns_empty_witness :
    exampleE.add exampleF = Matrix.empty ∧ exampleE.multiply exampleE = Matrix.empty ∧
      Matrix.empty.add Matrix.empty = Matrix.empty :=
  ⟨(mismatch_returns_empty exampleE exampleF).1 (by decide),
    (mismatch_returns_empty exampleE exampleE).2.1 (by decide),
    (mismatch_returns_empty exampleE exampleE).2.2.2.2 _ _ rfl rfl rfl rfl⟩

/-- C4: `determinant()` returns 0 for a matrix that is not square or has no rows. -/
theorem determinant_nonsquare_or_empty (M : Matrix) (h : M.rows_ ≠ M.cols_ ∨ M.rows_ = 0) :
    M.determinant = 0 := by
  unfold Matrix.determinant
  rw [if_pos h]

theorem determinant_nonsquare_or_empty_witness :
    (exampleE.rows_ ≠ exampleE.cols_ ∨ exampleE.rows_ = 0) ∧ exampleE.determinant = 0 :=
  ⟨by decide, determinant_nonsquare_or_empty exampleE (by decide)⟩

/-- C5: the transpose of a matrix with `r` rows and `c` columns has `c` rows and `r`
columns, and its entry `(j, i)` is the entry `(i, j)` of the source for `i < r`, `j < c`. -/
theorem transpose_spec (A : Matrix) :
    A.transpose.rows_ = A.cols_ ∧ A.transpose.cols_ = A.rows_ ∧
      ∀ i j, i < A.rows_ → j < A.cols_ → A.transpose.data j i = A.data i j := by
  refine ⟨rfl, rfl, ?_⟩
  intro i j hi hj
  rw [transpose_data, if_pos ⟨hi, hj⟩]

theorem transpose_spec_witness :
    exampleE.transpose.rows_ = 3 ∧ exampleE.transpose.cols_ = 2 ∧
      exampleE.transpose.data 2 1 = exampleE.data 1 2 :=
  ⟨(transpose_spec exampleE).1, (transpose_spec exampleE).2.1,
    (transpose_spec exampleE).2.2 1 2 (by decide) (by decide)⟩

/-- C6: transposing twice gives the matrix back: same dimensions, equal entries. -/
theorem transpose_transpose (A : Matrix) : A.transpose.transpose.Same A := by
  refine ⟨rfl, rfl, ?_⟩
  intro i j hi hj
  have hi1 : i < A.rows_ := hi
  have hj1 : j < A.cols_ := hj
  rw [transpose_data, transpose_data]
  simp [transpose_rows, transpose_cols, hi1, hj1]

/-- C7: for operands of identical dimensions, `add` has those dimensions and its entry
`(i, j)` is `A(i,j) + B(i,j)`. -/
theorem add_spec (A B : Matrix) (h1 : A.rows_ = B.rows_) (h2 : A.cols_ = B.cols_) :
    (A.add B).rows_ = A.rows_ ∧ (A.add B).cols_ = A.cols_ ∧
      ∀ i j, i < A.rows_ → j < A.cols_ → (A.add B).data i j = A.data i j + B.data i j := by
  refine ⟨add_rows A B h1 h2, add_cols A B h1 h2, ?_⟩
  intro i j hi hj
  rw [add_data A B h1 h2, if_pos ⟨hi, hj⟩]

theorem add_spec_witness :
    exampleC.rows_ = exampleD.rows_ ∧ exampleC.cols_ = exampleD.cols_ ∧
      ((exampleC.add exampleD).rows_ = exampleC.rows_ ∧
        (exampleC.add exampleD).cols_ = exampleC.cols_ ∧
        ∀ i j, i < exampleC.rows_ → j < exampleC.cols_ →
          (exampleC.add exampleD).data i j = exampleC.data i j + exampleD.data i j) :=
  ⟨by decide, by decide, add_spec exampleC exampleD (by decide) (by decide)⟩

/-- C8: for operands of identical dimensions, `add(A, B)` and `add(B, A)` have the same
dimensions and equal entries. -/
theorem add_comm_same (A B : Matrix) (h1 : A.rows_ = B.rows_) (h2 : A.cols_ = B.cols_) :
    (A.add B).Same (B.add A) := by
  refine ⟨?_, ?_, ?_⟩
  · rw [add_rows A B h1 h2, add_rows B A h1.symm h2.symm, h1]
  · rw [add_cols A B h1 h2, add_cols B A h1.symm h2.symm, h2]
  · intro i j _ _
    rw [add_data A B h1 h2, add_data B A h1.symm h2.symm, h1, h2, add_comm]

theorem add_comm_same_witness :
    exampleC.rows_ = exampleD.rows_ ∧ exampleC.cols_ = exampleD.cols_ ∧
      (exampleC.add exampleD).Same (exampleD.add exampleC) :=
  ⟨by decide, by decide, add_comm_same exampleC exampleD (by decide) (by decide)⟩

/-- C9, as stated, fails on `double`s: for `A = [[1]]` and `B = C = [[2^-53]]`, whose
entries are `double`s, `add(A, add(B, C))` holds `1 + 2^-52` and `add(add(A, B), C)`
holds `1`. -/
theorem add_assoc_rounded_counterexample :
    exampleOne.rows_ = exampleHalfUlp.rows_ ∧ exampleOne.cols_ = exampleHalfUlp.cols_ ∧
      roundDouble (exampleOne.data 0 0) = exampleOne.data 0 0 ∧
      roundDouble (exampleHalfUlp.data 0 0) = exampleHalfUlp.data 0 0 ∧
      (exampleOne.addWith roundDouble
          (exampleHalfUlp.addWith roundDouble exampleHalfUlp)).data 0 0 =
        1 + 1 / 4503599627370496 ∧
      ((exampleOne.addWith roundDouble exampleHalfUlp).addWith roundDouble
          exampleHalfUlp).data 0 0 = 1 ∧
      ¬ (exampleOne.addWith roundDouble
          (exampleHalfUlp.addWith roundDouble exampleHalfUlp)).Same
        ((exampleOne.addWith roundDouble exampleHalfUlp).addWith roundDouble
          exampleHalfUlp) :=
  ⟨by decide, by decide, by decide!, by decide!, by decide!, by decide!,
    fun h => absurd (h.2.2 0 0 (by decide) (by decide)) (by decide!)⟩

/-- C9, amended: for three matrices of identical dimensions, `add(A, add(B, C))` and
`add(add(A, B), C)` have the same dimensions, those of `A`, whatever the rounding of the
sums, and with arithmetic taken as exact they have equal entries. -/
theorem add_assoc_exact (rnd : ℚ → ℚ) (A B C : Matrix) (h1 : A.rows_ = B.rows_)
    (h2 : A.cols_ = B.cols_) (h3 : B.rows_ = C.rows_) (h4 : B.cols_ = C.cols_) :
    (A.addWith rnd (B.addWith rnd C)).rows_ = A.rows_ ∧
      (A.addWith rnd (B.addWith rnd C)).cols_ = A.cols_ ∧
      ((A.addWith rnd B).addWith rnd C).rows_ = A.rows_ ∧
      ((A.addWith rnd B).addWith rnd C).cols_ = A.cols_ ∧
      (A.addWith id (B.addWith id C)).Same ((A.addWith id B).addWith id C) ∧
      (A.add (B.add C)).Same ((A.add B).add C) := by
  have bcr := addWith_rows rnd B C h3 h4
  have bcc := addWith_cols rnd B C h3 h4
  have abr := addWith_rows rnd A B h1 h2
  have abc := addWith_cols rnd A B h1 h2
  have e1 : A.rows_ = (B.addWith rnd C).rows_ := by rw [bcr]; exact h1
  have e2 : A.cols_ = (B.addWith rnd C).cols_ := by rw [bcc]; exact h2
  have e3 : (A.addWith rnd B).rows_ = C.rows_ := by rw [abr, h1]; exact h3
  have e4 : (A.addWith rnd B).cols_ = C.cols_ := by rw [abc, h2]; exact h4
  refine ⟨addWith_rows rnd A _ e1 e2, addWith_cols rnd A _ e1 e2, ?_, ?_, ?_,
    add_add_exact A B C h1 h2 h3 h4⟩
  · rw [addWith_rows rnd _ C e3 e4, abr]
  · rw [addWith_cols rnd _ C e3 e4, abc]
  · rw [addWith_id]
    exact add_add_exact A B C h1 h2 h3 h4

theorem add_assoc_exact_witness :
    exampleC.rows_ = exampleD.rows_ ∧ exampleC.cols_ = exampleD.cols_ ∧
      exampleD.rows_ = exampleA.rows_ ∧ exampleD.cols_ = exampleA.cols_ ∧
      ((exampleC.addWith roundDouble (exampleD.addWith roundDouble exampleA)).rows_ =
          exampleC.rows_ ∧
        (exampleC.addWith roundDouble (exampleD.addWith roundDouble exampleA)).cols_ =
          exampleC.cols_ ∧
        ((exampleC.addWith roundDouble exampleD).addWith roundDouble exampleA).rows_ =
          exampleC.rows_ ∧
        ((exampleC.addWith roundDouble exampleD).addWith roundDouble exampleA).cols_ =
          exampleC.cols_ ∧
        (exampleC.addWith id (exampleD.addWith id exampleA)).Same
          ((exampleC.addWith id exampleD).addWith id exampleA) ∧
        (exampleC.add (exampleD.add exampleA)).Same ((exampleC.add exampleD).add exampleA)) :=
  ⟨by decide, by decide, by decide, by decide,
    add_assoc_exact roundDouble exampleC exampleD exampleA (by decide) (by decide) (by decide)
      (by decide)⟩

/-- C10: for `A` of size m×n, `B` of size n×p and `C` of size p×q, the products
`multiply(multiply(A, B), C)` and `multiply(A, multiply(B, C))` are both m×q and have
equal entries. -/
theorem multiply_assoc_same (A B C : Matrix) (h1 : A.cols_ = B.rows_)
    (h2 : B.cols_ = C.rows_) :
    ((A.multiply B).multiply C).rows_ = A.rows_ ∧
      ((A.multiply B).multiply C).cols_ = C.cols_ ∧
      (A.multiply (B.multiply C)).rows_ = A.rows_ ∧
      (A.multiply (B.multiply C)).cols_ = C.cols_ ∧
      ((A.multiply B).multiply C).Same (A.multiply (B.multiply C)) := by
  have abr := multiply_rows A B h1
  have abc := multiply_cols A B h1
  have bcr := multiply_rows B C h2
  have bcc := multiply_cols B C h2
  have e1 : (A.multiply B).cols_ = C.rows_ := by rw [abc]; exact h2
  have e2 : A.cols_ = (B.multiply C).rows_ := by rw [bcr]; exact h1
  have r1 := multiply_rows _ C e1
  have c1 := multiply_cols _ C e1
  have r2 := multiply_rows A _ e2
  have c2 := multiply_cols A _ e2
  refine ⟨by rw [r1, abr], c1, r2, by rw [c2, bcc], by rw [r1, r2, abr], by rw [c1, c2, bcc], ?_⟩
  intro i j hi hj
  rw [r1, abr] at hi
  rw [c1] at hj
  rw [multiply_data _ C e1, multiply_data A _ e2, abr, bcc, if_pos ⟨hi, hj⟩, if_pos ⟨hi, hj⟩,
    abc]
  have lhs : ∀ k ∈ Finset.range B.cols_,
      (A.multiply B).data i k * C.data k j =
        ∑ l in Finset.range A.cols_, A.data i l * B.data l k * C.data k j := by
    intro k hk
    rw [multiply_data A B h1, if_pos ⟨hi, Finset.mem_range.mp hk⟩, Finset.sum_mul]
  have rhs : ∀ l ∈ Finset.range A.cols_,
      A.data i l * (B.multiply C).data l j =
        ∑ k in Finset.range B.cols_, A.data i l * B.data l k * C.data k j := by
    intro l hl
    have hl1 : l < B.rows_ := h1 ▸ Finset.mem_range.mp hl
    rw [multiply_data B C h2, if_pos ⟨hl1, hj⟩, Finset.mul_sum]
    exact Finset.sum_congr rfl fun k _ => (mul_assoc _ _ _).symm
  rw [Finset.sum_congr rfl lhs, Finset.sum_congr rfl rhs, Finset.sum_comm]

theorem multiply_assoc_same_witness :
    exampleE.cols_ = exampleF.rows_ ∧ exampleF.cols_ = exampleE.rows_ ∧
      (((exampleE.multiply exampleF).multiply exampleE).rows_ = exampleE.rows_ ∧
        ((exampleE.multiply exampleF).multiply exampleE).cols_ = exampleE.cols_ ∧
        (exampleE.multiply (exampleF.multiply exampleE)).rows_ = exampleE.rows_ ∧
        (exampleE.multiply (exampleF.multiply exampleE)).cols_ = exampleE.cols_ ∧
        ((exampleE.multiply exampleF).multiply exampleE).Same
          (exampleE.multiply (exampleF.multiply exampleE))) :=
  ⟨by decide, by decide, multiply_assoc_same exampleE exampleF exampleE (by decide) (by decide)⟩

/-- C11, as stated, fails on `double`s: for `A = [[94906265]]`, `s = 94906267` and `t = 3`,
all of them `double`s with `s * t` exact, `scale(scale(A, s), t)` holds
`27021597978188268` and `scale(A, s*t)` holds `27021597978188264`. -/
theorem scale_scale_rounded_counterexample :
    roundDouble (exampleBig.data 0 0) = exampleBig.data 0 0 ∧
      roundDouble 94906267 = 94906267 ∧ roundDouble 3 = 3 ∧
      roundDouble (94906267 * 3) = 94906267 * 3 ∧
      ((exampleBig.scaleWith roundDouble 94906267).scaleWith roundDouble 3).data 0 0 =
        27021597978188268 ∧
      (exampleBig.scaleWith roundDouble (roundDouble (94906267 * 3))).data 0 0 =
        27021597978188264 ∧
      ¬ ((exampleBig.scaleWith roundDouble 94906267).scaleWith roundDouble 3).Same
        (exampleBig.scaleWith roundDouble (roundDouble (94906267 * 3))) :=
  ⟨by decide!, by decide!, by decide!, by decide!, by decide!, by decide!,
    fun h => absurd (h.2.2 0 0 (by decide) (by decide)) (by decide!)⟩

/-- C11, amended: scaling by `s` and then by `t` gives the same dimensions as scaling once
by `s * t`, those of `A`, whatever the rounding of the products, and with arithmetic taken
as exact it gives the same entries. -/
theorem scale_scale_exact (rnd : ℚ → ℚ) (A : Matrix) (s t : ℚ) :
    ((A.scaleWith rnd s).scaleWith rnd t).rows_ = A.rows_ ∧
      ((A.scaleWith rnd s).scaleWith rnd t).cols_ = A.cols_ ∧
      (A.scaleWith rnd (rnd (s * t))).rows_ = A.rows_ ∧
      (A.scaleWith rnd (rnd (s * t))).cols_ = A.cols_ ∧
      ((A.scaleWith id s).scaleWith id t).Same (A.scaleWith id (id (s * t))) ∧
      ((A.scale s).scale t).Same (A.scale (s * t)) :=
  ⟨rfl, rfl, rfl, rfl, scaleWith_id ▸ scale_twice_entries A s t,
    scale_twice_entries A s t⟩

/-- C12: the scalar-on-left product and the matrix-on-left product are the same matrix; it
has the dimensions of `A` and its entry `(i, j)` is `A(i,j)` multiplied by `s`. -/
theorem scaleLeft_eq_scale (A : Matrix) (s : ℚ) :
    scaleLeft s A = A.scale s ∧
      (scaleLeft s A).rows_ = A.rows_ ∧ (scaleLeft s A).cols_ = A.cols_ ∧
      (A.scale s).rows_ = A.rows_ ∧ (A.scale s).cols_ = A.cols_ ∧
      ∀ i j, i < A.rows_ → j < A.cols_ →
        (scaleLeft s A).data i j = A.data i j * s ∧ (A.scale s).data i j = A.data i j * s := by
  refine ⟨rfl, rfl, rfl, rfl, rfl, ?_⟩
  intro i j hi hj
  have h : (A.scale s).data i j = A.data i j * s := by
    rw [scale_data, if_pos ⟨hi, hj⟩]
  exact ⟨h, h⟩

theorem scaleLeft_eq_scale_witness :
    scaleLeft 2 exampleE = exampleE.scale 2 ∧
      (scaleLeft 2 exampleE).data 1 2 = exampleE.data 1 2 * 2 :=
  ⟨(scaleLeft_eq_scale exampleE 2).1,
    ((scaleLeft_eq_scale exampleE 2).2.2.2.2.2 1 2 (by decide) (by decide)).1⟩

/-- C13: `determinant()` of the matrix `[[2,-1,0],[-1,2,-1],[0,-1,2]]` is 4. -/
theorem determinant_exampleC : exampleC.determinant = 4 := by decide!

/-- C14: `determinant()` of the matrix `[[1,2,3],[4,5,6],[7,8,9]]` is 0. -/
theorem determinant_exampleA : exampleA.determinant = 0 := by decide!

/-- C20: the two tolerance tests disagree at the boundary: the 1×1 matrix `[[1e-12]]` is
square, its `determinant()` is `1e-12`, which is not zero, and its `rank()` is 0, which is
smaller than its size. -/
theorem tolerance_boundary_disagrees :
    (∃ M : Matrix, M.rows_ = M.cols_ ∧ M.determinant ≠ 0 ∧ M.rank < M.rows_) ∧
      exampleTol.rows_ = 1 ∧ exampleTol.cols_ = 1 ∧ exampleTol.data 0 0 = tol ∧
      exampleTol.determinant = tol ∧ exampleTol.rank = 0 :=
  ⟨⟨exampleTol, by decide!, by decide!, by decide!⟩, by decide!, by decide!, by decide!,
    by decide!, by decide!⟩

/-- C15: when all rows are multiples of one row vector and some entry exceeds the
tolerance in absolute value, `rank()` returns 1. -/
theorem rank_proportional_rows (M : Matrix) (mu v : Nat → ℚ)
    (hrows : ∀ i j, i < M.rows_ → j < M.cols_ → M.data i j = mu i * v j)
    (hbig : ∃ i j, i < M.rows_ ∧ j < M.cols_ ∧ tol < abs (M.data i j)) : M.rank = 1 := by
  have h1 : M.rank ≤ 1 :=
    le_trans (rank_le_matrix_rank M) (toRect_rank_le_one M.rows_ M.cols_ M.data mu v hrows)
  have h0 : M.rank ≠ 0 := by
    intro h
    obtain ⟨i, j, hi, hj, hgt⟩ := hbig
    exact absurd ((rank_zero_iff M).mp h i j hi hj) (not_le.mpr hgt)
  omega

theorem rank_proportional_rows_witness :
    (∀ i j, i < exampleD.rows_ → j < exampleD.cols_ →
        exampleD.data i j = (fun i => ((i + 1 : Nat) : ℚ)) i * exampleD.data 0 j) ∧
      (∃ i j, i < exampleD.rows_ ∧ j < exampleD.cols_ ∧ tol < abs (exampleD.data i j)) ∧
      exampleD.rank = 1 :=
  have hrows : ∀ i, i < exampleD.rows_ → ∀ j, j < exampleD.cols_ →
      exampleD.data i j = (fun i => ((i + 1 : Nat) : ℚ)) i * exampleD.data 0 j := by decide!
  ⟨fun i j hi hj => hrows i hi j hj, ⟨0, 0, by decide!⟩,
    rank_proportional_rows exampleD (fun i => ((i + 1 : Nat) : ℚ)) (exampleD.data 0)
      (fun i j hi hj => hrows i hi j hj) ⟨0, 0, by decide!⟩⟩

/-- C16: `rank()` of the `n × n` identity matrix is `n`, for every `n`. -/
theorem rank_identity (n : Nat) : (identity n).rank = n := by
  obtain ⟨col1, s1, ⟨p1, p2, p3⟩, hc, hex, hres⟩ :=
    rankLoop_inv n n
      (fun col s => s.A = (identity n).copy.data ∧ s.row = col ∧ s.r = col)
      (by
        intro col s hcol _ hP
        obtain ⟨q1, q2, q3⟩ := hP
        have hs : s = ⟨(identity n).copy.data, col, col⟩ := by
          cases s with
          | mk A row r =>
            simp only at q1 q2 q3
            rw [q1, q2, q3]
        rw [hs, rankBody_identity n col hcol]
        exact ⟨rfl, rfl, rfl⟩)
      n 0 ⟨(identity n).copy.data, 0, 0⟩ (by omega) ⟨rfl, rfl, rfl⟩
  have e : (identity n).rank = rankLoop n n n 0 ⟨(identity n).copy.data, 0, 0⟩ := rfl
  rw [e, hres, p3]
  rcases hex with h | h
  · exact h
  · omega

/-- C17: `rank()` returns at most the smaller of the number of rows and the number of
columns, and 0 for a matrix without rows or without columns. -/
theorem rank_le_min_dims (M : Matrix) :
    0 ≤ M.rank ∧ M.rank ≤ min M.rows_ M.cols_ ∧
      ((M.rows_ = 0 ∨ M.cols_ = 0) → M.rank = 0) := by
  have h : M.rank ≤ min M.rows_ M.cols_ := by
    rw [rank_unfold]
    exact rankLoop_le_min M.rows_ M.cols_ M.cols_ 0 _ (by omega) rfl (Nat.zero_le _)
      (le_refl _)
  refine ⟨Nat.zero_le _, h, ?_⟩
  intro he
  have : min M.rows_ M.cols_ = 0 := by
    rcases he with h0 | h0 <;> simp [h0]
  omega

theorem rank_le_min_dims_witness :
    exampleE.rank ≤ min exampleE.rows_ exampleE.cols_ ∧ Matrix.empty.rank = 0 :=
  ⟨(rank_le_min_dims exampleE).2.1, (rank_le_min_dims Matrix.empty).2.2 (Or.inl rfl)⟩

/-- C18: `rank()` never exceeds the rank of the matrix, the dimension of the space spanned
by its rows. -/
theorem rank_le_true_rank (M : Matrix) :
    M.rank ≤ (toRect M.rows_ M.cols_ M.data).rank ∧
      (toRect M.rows_ M.cols_ M.data).rank =
        Module.finrank ℚ (Submodule.span ℚ (Set.range (toRect M.rows_ M.cols_ M.data))) :=
  ⟨rank_le_matrix_rank M, Matrix.rank_eq_finrank_span_row _⟩

/-- C19: `rank()` returns 0 exactly when every entry is at most the tolerance in absolute
value; so it returns at least 1 as soon as one entry exceeds the tolerance. -/
theorem rank_eq_zero_iff (M : Matrix) :
    (M.rank = 0 ↔ ∀ i j, i < M.rows_ → j < M.cols_ → abs (M.data i j) ≤ tol) ∧
      ((∃ i j, i < M.rows_ ∧ j < M.cols_ ∧ tol < abs (M.data i j)) → 1 ≤ M.rank) := by
  refine ⟨rank_zero_iff M, ?_⟩
  rintro ⟨i, j, hi, hj, hgt⟩
  have h0 : M.rank ≠ 0 := fun h =>
    absurd ((rank_zero_iff M).mp h i j hi hj) (not_le.mpr hgt)
  omega

theorem rank_eq_zero_iff_witness :
    1 ≤ exampleD.rank ∧ exampleTol.rank = 0 :=
  ⟨(rank_eq_zero_iff exampleD).2 ⟨0, 0, by decide!⟩,
    (rank_eq_zero_iff exampleTol).1.mpr (fun i j hi hj =>
      (by decide! : ∀ i, i < exampleTol.rows_ → ∀ j, j < exampleTol.cols_ →
        abs (exampleTol.data i j) ≤ tol) i hi j hj)⟩

end MatrixCpp
